import Mathlib

/-!
Verification of the fabricator vlab core against its specification.

The Go sources (package `vlab`) are shallowly embedded below:
* port-name parsing (`portIdForName`) and the Go `strconv.Atoi` behaviour,
* the topology compiler (`assignVMs`, `addLink`, `newVMManager`, gap filling),
* the connectivity verification engine's pure decision logic (ping
  classification, iperf scoring, VPC-attachment binding, VPC-peering
  expansion, external-peering binding).

Strings from the Go code are modelled as `List Char` (the byte/rune sequence),
errors as `Except String` / `Option`, and Go maps as association lists.
-/

set_option maxRecDepth 4000

namespace Fabricator

/-- Mirrors Go `strings.HasPrefix s pat` (argument order: pattern first). -/
def hasPref : List Char → List Char → Bool
  | [], _ => true
  | _ :: _, [] => false
  | a :: p, b :: l => a == b && hasPref p l

/-- Mirrors Go `strings.Contains s pat`: some suffix of `s` starts with `pat`. -/
def containsSub : List Char → List Char → Bool
  | [], pat => hasPref pat []
  | c :: t, pat => hasPref pat (c :: t) || containsSub t pat

/-- Numeric value of a digit string (no validity check; callers check first). -/
def digitsVal (l : List Char) : Nat :=
  l.foldl (fun a c => a * 10 + (c.toNat - 48)) 0

/-- Digits-only parse: `none` on the empty string or any non-digit character. -/
def parseDigits (l : List Char) : Option Nat :=
  if !l.isEmpty && l.all Char.isDigit then some (digitsVal l) else none

/-- Largest value of Go's 64-bit `int`. -/
def maxInt64 : Nat := 9223372036854775807

/-- Mirrors Go `strconv.Atoi`: optional sign followed by decimal digits;
`none` for the empty string, a malformed string, or a value outside the
64-bit `int` range (Go returns `ErrSyntax` / `ErrRange` there and the vlab
callers treat any non-nil error as failure). -/
def goAtoi (s : List Char) : Option Int :=
  match s with
  | '+' :: rest =>
      (parseDigits rest).bind fun n =>
        if n ≤ maxInt64 then some (n : Int) else none
  | '-' :: rest =>
      (parseDigits rest).bind fun n =>
        if n ≤ maxInt64 + 1 then some (-(n : Int)) else none
  | _ =>
      (parseDigits s).bind fun n =>
        if n ≤ maxInt64 then some (n : Int) else none

/-- Mirrors `portIdForName` (part_000 lines 1127-1149): `Management0*` maps to
index 0, `Ethernet<N>` to `N+1`, `port<N>` to `N`, `enp2s<N>` to `N`, anything
else is an error; a non-parsing numeric suffix is an error (the Go code
returns the wrapped `strconv.Atoi` error). -/
def portIdForName (name : List Char) : Except String Int :=
  if hasPref (("Management0").data) name then .ok 0
  else if hasPref (("Ethernet").data) name then
    match goAtoi (name.drop 8) with
    | some idx => .ok (idx + 1)
    | none => .error "error converting port name to port id"
  else if hasPref (("port").data) name then
    match goAtoi (name.drop 4) with
    | some idx => .ok idx
    | none => .error "error converting port name to port id"
  else if hasPref (("enp2s").data) name then
    match goAtoi (name.drop 5) with
    | some idx => .ok idx
    | none => .error "error converting port name to port id"
  else .error "unsupported port name"

/-- The packet-loss marker the ping classifier greps for. -/
def pingLossMsg : List Char := ("0 received, 100% packet loss").data

/-- Mirrors the ping classification chain in `TestServerConnectivity`
(part_000 lines 503-525).  `pingErr` is "the remote ping command returned an
error", `out` its combined output.  `.ok true` means the check passed,
`.ok false` that it failed; the final `.error` branch mirrors the
`errors.Errorf("unexpected result")` fall-through in the Go code. -/
def pingVerdict (peerConnected : Bool) (pingErr : Bool) (out : List Char) :
    Except String Bool :=
  if peerConnected && pingErr then .ok false
  else if !peerConnected && !pingErr then .ok false
  else if !peerConnected && pingErr && !out.isEmpty
      && !containsSub out pingLossMsg then .ok false
  else if peerConnected then .ok true
  else if !peerConnected then .ok true
  else .error "unexpected result"

/-- Mirrors `Iperf3ReportSum`; `bits_per_second` is a JSON number (Go
`float64`), modelled as a rational — every finite double is one, and the
comparison against the integer floor is exact either way. -/
structure Iperf3ReportSum where
  bytes : Int
  bitsPerSecond : ℚ
deriving DecidableEq

/-- Mirrors `Iperf3ReportInterval`. -/
structure Iperf3ReportInterval where
  sum : Iperf3ReportSum
deriving DecidableEq

/-- Mirrors `Iperf3ReportEnd` (Go fields `SumSent` / `SumReceived`). -/
structure Iperf3ReportEnd where
  sumSent : Iperf3ReportSum
  sumReceived : Iperf3ReportSum
deriving DecidableEq

/-- Mirrors `Iperf3Report` (Go field `End`, renamed: `end` is reserved). -/
structure Iperf3Report where
  intervals : List Iperf3ReportInterval
  endSum : Iperf3ReportEnd
deriving DecidableEq

/-- The fixed throughput floor compared against in part_000 line 595. -/
def iperfSpeedFloor : ℚ := 8500000000

/-- Client-goroutine scoring of one iperf pair (part_000 lines 567-603):
`sshErr` = the client command failed, `parsed` = result of
`parseIperf3Report` (`none` on malformed JSON).  Returns the contribution of
the client side to the pair's `passed` flag. -/
def iperfClientPassed (sshErr : Bool) (parsed : Option Iperf3Report) : Bool :=
  if sshErr then false
  else
    match parsed with
    | none => false
    | some report =>
        if report.endSum.sumSent.bitsPerSecond < iperfSpeedFloor then false
        else true

/-! ## Topology compiler (part_000 lines 733-1149, package vlab VM manager) -/

/-- Mirrors `VMType`. -/
inductive VMType
  | control
  | server
  | switchVS
  | switchHW
deriving DecidableEq

/-- Structured form of the qemu netdev string built by the compiler.  The Go
code renders these as strings (`fmt.Sprintf`); the embedding keeps the exact
parameters and drops only the constant surrounding text.
`userCtrl`/`userServer` are the synthesized management interfaces (part_000
lines 881-882 and 915-916), `socketUdp` the software transport built in
`AddLink` (lines 1074-1077): `udp` is the port derived from the local VM and
interface, `localaddr` the port derived from the remote VM and interface when
a remote endpoint exists. -/
inductive Netdev
  | userCtrl (sshPort kubePort registryPort : Nat) (hostname : String) (netIdx : Nat)
  | userServer (sshPort : Nat) (hostname : String) (netIdx : Nat)
  | socketUdp (udp : Int) (localaddr : Option Int)
deriving DecidableEq

/-- Mirrors `VMInterface` (Go fields `Connection`, `Netdev`, `Passthrough`;
Go's empty strings appear as `none` / `""`). -/
structure VMInterface where
  connection : String
  netdev : Option Netdev
  passthrough : Option String
deriving DecidableEq

/-- The Go zero value `VMInterface{}` used as a gap placeholder. -/
def VMInterface.empty : VMInterface := ⟨"", none, none⟩

/-- Mirrors `VMConfig` (CPU/RAM/disk sizing). -/
structure VMConfig where
  cpu : Nat
  ram : Nat
  disk : Nat
deriving DecidableEq

/-- Modelled from the spec: `VMConfig.DefaultsFrom` is defined outside src/;
per §4.1 step 1 a dimension left at its zero value inherits the default. -/
def VMConfig.DefaultsFrom (c d : VMConfig) : VMConfig :=
  ⟨if c.cpu == 0 then d.cpu else c.cpu,
   if c.ram == 0 then d.ram else c.ram,
   if c.disk == 0 then d.disk else c.disk⟩

/-- Modelled from the spec: `VMConfig.OverrideBy` is defined outside src/;
per §4.1 step 1 an override only replaces dimensions it explicitly
specifies (non-zero values). -/
def VMConfig.OverrideBy (c o : VMConfig) : VMConfig :=
  ⟨if o.cpu == 0 then c.cpu else o.cpu,
   if o.ram == 0 then c.ram else o.ram,
   if o.disk == 0 then c.disk else o.disk⟩

def VM_SIZE_DEFAULT : String := "default"
def VM_SIZE_COMPACT : String := "compact"
def VM_SIZE_FULL : String := "full"

def DefaultControlVM : VMConfig := ⟨6, 6144, 100⟩
def CompactControlVM : VMConfig := ⟨4, 4096, 50⟩
def FullControlVM : VMConfig := ⟨8, 16384, 250⟩
def DefaultServerVM : VMConfig := ⟨2, 512, 10⟩
def CompactServerVM : VMConfig := ⟨1, 0, 0⟩
def FullServerVM : VMConfig := ⟨0, 0, 0⟩
def DefaultSwitchVM : VMConfig := ⟨4, 5120, 50⟩
def CompactSwitchVM : VMConfig := ⟨3, 3584, 30⟩
def FullSwitchVM : VMConfig := ⟨0, 8192, 0⟩

/-- Modelled from the spec (§4.1 step 7): the fixed port/address base
constants are declared outside src/; only the formulas using them are in
src/.  The concrete values below are representative — no claim depends on
them. -/
def SSH_PORT_BASE : Nat := 22000
def KUBE_PORT : Nat := 6443
def REGISTRY_PORT : Nat := 31000
def IF_PORT_BASE : Int := 30000
def IF_PORT_VM_ID_MULT : Int := 100
def IF_PORT_PORT_ID_MULT : Int := 1

/-- Mirrors `VM` (file markers `Ready`/`Installed` carry no compiler logic
and are omitted; Go fields `ID`, `Name`, `Type`, `Basedir`, `Config`,
`Interfaces`, the interface map keyed by `int`). -/
structure VM where
  id : Nat
  name : String
  typ : VMType
  basedir : String
  config : VMConfig
  interfaces : List (Int × VMInterface)
deriving DecidableEq

/-- Mirrors `sshPortFor` (line 1123). -/
def sshPortFor (vmID : Nat) : Nat := SSH_PORT_BASE + vmID

/-- Mirrors `(*VM).sshPort` (line 1119). -/
def VM.sshPort (vm : VM) : Nat := sshPortFor vm.id

/-- Mirrors `(*VM).ifacePortFor` (line 1115): the deterministic UDP transport
port for one interface of one VM. -/
def VM.ifacePortFor (vm : VM) (iface : Int) : Int :=
  IF_PORT_BASE + (vm.id : Int) * IF_PORT_VM_ID_MULT + iface * IF_PORT_PORT_ID_MULT

/-- Per-port passthrough configuration (`cfg.Links` entry). -/
structure LinkCfg where
  pciAddress : String
deriving DecidableEq

/-- The sizing part of the service config (Go `cfg.VMs`; field `Switch`
renamed, `switch` is reserved). -/
structure VMsCfg where
  control : VMConfig
  server : VMConfig
  switchCfg : VMConfig
deriving DecidableEq

/-- The part of the service `Config` the compiler reads: sizing plus the
passthrough map `Links` keyed by full port name. -/
structure Config where
  vmsCfg : VMsCfg
  links : List (String × LinkCfg)
deriving DecidableEq

/-- One endpoint of a wiring link: the `wiringapi.IPort` accessors
`DeviceName()` and `LocalPortName()`.  Port names are char lists so that the
prefix-based `portIdForName` is directly applicable. -/
structure IPort where
  deviceName : String
  localPortName : List Char
deriving DecidableEq

/-- Mirrors `IPort.PortName()`: `"<device>/<port>"` (the key used for the
passthrough lookup and in error messages). -/
def IPort.portName (p : IPort) : String :=
  p.deviceName ++ "/" ++ String.mk p.localPortName

/-- Mirrors `wiringapi.ServerType`: control or default (plain) server. -/
inductive ServerType
  | control
  | default
deriving DecidableEq

/-- A server device of the wiring model (name + type). -/
structure ServerDev where
  name : String
  typ : ServerType
deriving DecidableEq

/-- The connection variants of `wiringapi.ConnectionSpec` as the explicit sum
the expansion at part_000 lines 946-992 branches over.  Each pair is
`(first, second)` in the order the Go code puts them into `links`. -/
inductive ConnSpec
  | unbundled (server switchPort : IPort)
  | bundled (links : List (IPort × IPort))
  | management (server switchPort : IPort)
  | mclag (links : List (IPort × IPort))
  | mclagDomain (peerLinks sessionLinks : List (IPort × IPort))
  | natConn (switchPort : IPort)
  | fabricConn (links : List (IPort × IPort))
  | vpcLoopback (links : List (IPort × IPort))
deriving DecidableEq

/-- A named connection. -/
structure Conn where
  name : String
  spec : ConnSpec
deriving DecidableEq

/-- The wiring data the compiler consumes (`data.Server.All()`,
`data.Switch.All()`, `data.Connection.All()` in iteration order). -/
structure WiringData where
  servers : List ServerDev
  switches : List String
  connections : List Conn
deriving DecidableEq

/-- Mirrors `VMManager`: the passthrough/sizing config plus the VM registry
keyed by device name (insertion-ordered association list). -/
structure VMManager where
  cfg : Config
  vms : List (String × VM)
deriving DecidableEq

/-- Go map assignment `mngr.vms[name] = vm` for an existing key. -/
def updateVM (vms : List (String × VM)) (name : String) (vm : VM) :
    List (String × VM) :=
  vms.map fun p =>
    match p.1 == name with
    | true => (p.1, vm)
    | false => p

/-- Destination resolution inside `AddLink` (lines 1047-1056): port index and
VM of the remote endpoint, `none` when the link has no remote endpoint. -/
def resolveDest (mngr : VMManager) : Option IPort → Except String (Option (VM × Int))
  | none => .ok none
  | some dp =>
    match portIdForName dp.localPortName with
    | .error e => .error e
    | .ok destPortID =>
      match List.lookup dp.deviceName mngr.vms with
      | none => .error "dest does not exist"
      | some destVM => .ok (some (destVM, destPortID))

/-- Mirrors `(*VMManager).AddLink` (lines 1028-1086): resolve the local VM and
interface index, fail on a nil local port, unknown device, bad port name or
occupied index; then record either a passthrough descriptor (when `cfg.Links`
has the port) or a software UDP transport paired with the remote endpoint's
deterministic port when a remote exists. -/
def VMManager.AddLink (mngr : VMManager) (localPort destPort : Option IPort)
    (conn : String) : Except String VMManager :=
  match localPort with
  | none => .error "local port can't be nil"
  | some lp =>
    match List.lookup lp.deviceName mngr.vms with
    | none => .error "local device does not exist"
    | some localVM =>
      match portIdForName lp.localPortName with
      | .error e => .error e
      | .ok localPortID =>
        match resolveDest mngr destPort with
        | .error e => .error e
        | .ok destResolved =>
          if (List.lookup localPortID localVM.interfaces).isSome then
            .error "interface already exists, can't add"
          else
            match List.lookup lp.portName mngr.cfg.links with
            | some linkCfg =>
              if linkCfg.pciAddress == "" then .error "pci address required"
              else
                let localVM' : VM := { localVM with interfaces := localVM.interfaces
                  ++ [(localPortID, ⟨conn, none, some linkCfg.pciAddress⟩)] }
                .ok { mngr with vms := updateVM mngr.vms lp.deviceName localVM' }
            | none =>
              let nd := Netdev.socketUdp (localVM.ifacePortFor localPortID)
                (destResolved.map fun d => d.1.ifacePortFor d.2)
              let localVM' : VM := { localVM with interfaces := localVM.interfaces
                ++ [(localPortID, ⟨conn, some nd, none⟩)] }
              .ok { mngr with vms := updateVM mngr.vms lp.deviceName localVM' }

/-- The per-variant link expansion (lines 946-992): each connection yields
`(local, remote)` pairs, the NAT variant a single pair with no remote. -/
def linksForConn : ConnSpec → List (Option IPort × Option IPort)
  | .unbundled s sw => [(some s, some sw)]
  | .bundled ls => ls.map fun l => (some l.1, some l.2)
  | .management s sw => [(some s, some sw)]
  | .mclag ls => ls.map fun l => (some l.1, some l.2)
  | .mclagDomain pls sls =>
      pls.map (fun l => (some l.1, some l.2)) ++ sls.map (fun l => (some l.1, some l.2))
  | .natConn sw => [(some sw, none)]
  | .fabricConn ls => ls.map fun l => (some l.1, some l.2)
  | .vpcLoopback ls => ls.map fun l => (some l.1, some l.2)

/-- The link loop of `NewVMManager` (lines 994-1003): every pair is added in
both directions by calling `AddLink` twice with the arguments swapped. -/
def addLinksOf (mngr : VMManager) (connName : String) :
    List (Option IPort × Option IPort) → Except String VMManager
  | [] => .ok mngr
  | l :: rest =>
    match mngr.AddLink l.1 l.2 connName with
    | .error e => .error e
    | .ok m1 =>
      match m1.AddLink l.2 l.1 connName with
      | .error e => .error e
      | .ok m2 => addLinksOf m2 connName rest

/-- The connection loop of `NewVMManager` (lines 946-1004). -/
def addConnections (mngr : VMManager) : List Conn → Except String VMManager
  | [] => .ok mngr
  | c :: rest =>
    match addLinksOf mngr c.name (linksForConn c.spec) with
    | .error e => .error e
    | .ok m => addConnections m rest

/-- Control VM record (lines 871-885): management interface at index 0 with
SSH, kube-API and registry port forwards and the VM-ID-keyed private net. -/
def mkControlVM (cfgC : VMConfig) (name : String) (vmID : Nat) : VM :=
  ⟨vmID, name, .control, "", cfgC,
    [(0, ⟨"host", some (.userCtrl (sshPortFor vmID) KUBE_PORT REGISTRY_PORT name vmID), none⟩)]⟩

/-- Plain server VM record (lines 906-919): management interface at index 0
with the SSH forward and the VM-ID-keyed private net. -/
def mkServerVM (cfgS : VMConfig) (name : String) (vmID : Nat) : VM :=
  ⟨vmID, name, .server, "", cfgS,
    [(0, ⟨"host", some (.userServer (sshPortFor vmID) name vmID), none⟩)]⟩

/-- Software switch VM record (lines 929-935): no interfaces yet. -/
def mkSwitchVM (cfgSw : VMConfig) (name : String) (vmID : Nat) : VM :=
  ⟨vmID, name, .switchVS, "", cfgSw, []⟩

/-- One ID-assignment pass (the three loops at lines 862-938 share this
shape): add a VM per name in iteration order with consecutive IDs, failing on
a name already in the registry. -/
def addVMs (mk : String → Nat → VM) : List String → List (String × VM) → Nat →
    Except String (List (String × VM) × Nat)
  | [], vms, vmID => .ok (vms, vmID)
  | n :: rest, vms, vmID =>
    if (List.lookup n vms).isSome then .error "duplicate server/switch name"
    else addVMs mk rest (vms ++ [(n, mk n vmID)]) (vmID + 1)

/-- The expected registry segment one `addVMs` pass appends (proof helper). -/
def buildVMs (mk : String → Nat → VM) : List String → Nat → List (String × VM)
  | [], _ => []
  | n :: rest, vmID => (n, mk n vmID) :: buildVMs mk rest (vmID + 1)

/-- The VM-ID assignment passes of `NewVMManager` (lines 860-938): the single
control device first (ID 0, zero or several control devices are fatal), then
plain servers in iteration order, then software switches. -/
def assignVMs (cfg : VMsCfg) (servers : List ServerDev) (switches : List String) :
    Except String (List (String × VM) × Nat) :=
  match addVMs (mkControlVM cfg.control)
      ((servers.filter fun s => s.typ == ServerType.control).map ServerDev.name) [] 0 with
  | .error e => .error e
  | .ok (vms, vmID) =>
    if vmID == 0 then .error "control node is required"
    else if 1 < vmID then .error "multiple control nodes not support"
    else
      match addVMs (mkServerVM cfg.server)
          ((servers.filter fun s => s.typ == ServerType.default).map ServerDev.name)
          vms vmID with
      | .error e => .error e
      | .ok (vms, vmID) =>
        match addVMs (mkSwitchVM cfg.switchCfg) switches vms vmID with
        | .error e => .error e
        | .ok (vms, vmID) => .ok (vms, vmID)

/-- The size-class layering at lines 836-853. -/
def applySizing (v : VMsCfg) (size : String) : VMsCfg :=
  let v : VMsCfg := ⟨v.control.DefaultsFrom DefaultControlVM,
    v.server.DefaultsFrom DefaultServerVM, v.switchCfg.DefaultsFrom DefaultSwitchVM⟩
  let v : VMsCfg := if size == VM_SIZE_DEFAULT then
    ⟨v.control.OverrideBy DefaultControlVM, v.server.OverrideBy DefaultServerVM,
      v.switchCfg.OverrideBy DefaultSwitchVM⟩ else v
  let v : VMsCfg := if size == VM_SIZE_COMPACT then
    ⟨v.control.OverrideBy CompactControlVM, v.server.OverrideBy CompactServerVM,
      v.switchCfg.OverrideBy CompactSwitchVM⟩ else v
  let v : VMsCfg := if size == VM_SIZE_FULL then
    ⟨v.control.OverrideBy FullControlVM, v.server.OverrideBy FullServerVM,
      v.switchCfg.OverrideBy FullSwitchVM⟩ else v
  v

/-- The basedir pass at lines 940-944 (file markers omitted). -/
def setBasedirs (basedir : String) (vms : List (String × VM)) : List (String × VM) :=
  vms.map fun p => (p.1, { p.2 with basedir := basedir ++ "/" ++ p.2.name })

/-- The running maximum used interface index (`maxDevID`, lines 1008-1016;
it starts at 0, so it is 0 for an empty interface map). -/
def maxIfaceKey (ifs : List (Int × VMInterface)) : Int :=
  ifs.foldl (fun a p => max a p.1) 0

/-- The gap-filling pass for one VM (lines 1006-1023): every index from 0 to
the maximum used index that has no interface gets the placeholder
`VMInterface{}`. -/
def fillGapsIfaces (ifs : List (Int × VMInterface)) : List (Int × VMInterface) :=
  ifs ++ ((List.map Int.ofNat (List.range ((maxIfaceKey ifs).toNat + 1))).filter
      fun i => (List.lookup i ifs).isNone).map fun i => (i, VMInterface.empty)

/-- Gap filling lifted to a VM. -/
def fillGapsVM (vm : VM) : VM := { vm with interfaces := fillGapsIfaces vm.interfaces }

/-- Dense interface map: every index from 0 up to the running maximum
`maxIfaceKey` is assigned (decidably phrased over the Nat range). -/
def denseIfaces (ifs : List (Int × VMInterface)) : Prop :=
  ∀ i < (maxIfaceKey ifs).toNat + 1, (List.lookup (Int.ofNat i) ifs).isSome = true

/-- Mirrors `NewVMManager` (lines 835-1026): sizing, ID assignment, basedirs,
connection expansion into both-direction `AddLink` calls, gap filling.  On
any error no registry is produced. -/
def NewVMManager (cfg : Config) (data : WiringData) (basedir : String)
    (size : String) : Except String VMManager :=
  let vmsCfg := applySizing cfg.vmsCfg size
  match assignVMs vmsCfg data.servers data.switches with
  | .error e => .error e
  | .ok (vms, _) =>
    let mngr : VMManager := ⟨⟨vmsCfg, cfg.links⟩, setBasedirs basedir vms⟩
    match addConnections mngr data.connections with
    | .error e => .error e
    | .ok m => .ok { m with vms := m.vms.map fun p => (p.1, fillGapsVM p.2) }

/-! ## Connectivity verification engine state (part_000 lines 223-674) -/

/-- The per-run server test record (`Server`, lines 653-671), restricted to
the fields the overlay-derivation phases read and write: VPC and subnet
membership, expected peers, bound externals.  `vpc` is `srv.VPC.Name`. -/
structure Server where
  name : String
  vpc : String
  subnet : String
  vpcPeers : List String
  externals : List String
  externalPeering : Option String
deriving DecidableEq

/-- A VPC attachment object: `Spec.Connection` plus the two halves of
`Spec.Subnet` (`VPCName()` / `SubnetName()`). -/
structure VPCAttachment where
  name : String
  connection : String
  vpcName : String
  subnetName : String
deriving DecidableEq

/-- The attachment-binding loop of Phase B (lines 339-352): scan the
attachment list, keep the first one whose `Connection` is the server's
qualifying connection; a second match only logs and moves to the next
attachment (`continue` of the inner loop). -/
def bindVPCAttachment (connName : String) (atts : List VPCAttachment) :
    Option VPCAttachment :=
  atts.foldl
    (fun acc a =>
      if a.connection == connName then
        if acc.isSome then acc else some a
      else acc)
    none

/-- Whether Phase B keeps the server in the test universe after the
attachment loop (lines 354-357: only a server with no bound attachment is
dropped at this point). -/
def phaseBKeepsServer (connName : String) (atts : List VPCAttachment) : Bool :=
  (bindVPCAttachment connName atts).isSome

/-- A VPC peering object; `vpc1`/`vpc2` are the two participants returned by
the fabric API accessor `Spec.VPCs()` (defined outside src/). -/
structure VPCPeering where
  name : String
  vpc1 : String
  vpc2 : String
deriving DecidableEq

/-- Member-server names of a VPC (lines 406-416). -/
def vpcServerNames (ss : List Server) (vpc : String) : List String :=
  (ss.filter fun s => s.vpc == vpc).map Server.name

/-- Add `peer` to server `s`'s expected-peer set when `s` is the targeted
server and the peer is not yet present (lines 427-433, one `slices.Contains`
guarded append). -/
def addPeer1 (target peer : String) (s : Server) : Server :=
  match s.name == target with
  | false => s
  | true =>
    match s.vpcPeers.contains peer with
    | true => s
    | false => { s with vpcPeers := s.vpcPeers ++ [peer] }

/-- `addPeer1` applied across the server map. -/
def addPeerTo (ss : List Server) (target peer : String) : List Server :=
  ss.map (addPeer1 target peer)

/-- The cross-pair double loop (lines 425-435): for every pair, each side is
added to the other's expected-peer set. -/
def addPeerPairs (ss : List Server) : List (String × String) → List Server
  | [] => ss
  | (a, b) :: rest => addPeerPairs (addPeerTo (addPeerTo ss a b) b a) rest

/-- One VPC peering of Phase C (lines 400-436): both member sets must be
non-empty (fatal otherwise), then every cross pair becomes mutually
expected-connected. -/
def applyVPCPeering (ss : List Server) (p : VPCPeering) :
    Except String (List Server) :=
  if (vpcServerNames ss p.vpc1).length < 1 then
    .error "not enough servers found for peering"
  else if (vpcServerNames ss p.vpc2).length < 1 then
    .error "not enough servers found for peering"
  else .ok (addPeerPairs ss ((vpcServerNames ss p.vpc1).flatMap
    fun a => (vpcServerNames ss p.vpc2).map fun b => (a, b)))

/-- The VPC-peering loop of Phase C. -/
def derivePeers (ss : List Server) : List VPCPeering → Except String (List Server)
  | [] => .ok ss
  | p :: rest =>
    match applyVPCPeering ss p with
    | .error e => .error e
    | .ok ss' => derivePeers ss' rest

/-- The state invariant claim C10 asserts of expected-peer derivation:
duplicate-free peer sets and symmetric expected connectivity. -/
def peersStateInv (ss : List Server) : Prop :=
  (∀ s ∈ ss, s.vpcPeers.Nodup)
  ∧ ∀ a ∈ ss, ∀ b ∈ ss, (b.name ∈ a.vpcPeers ↔ a.name ∈ b.vpcPeers)

/-- An external peering object: `Spec.Permit.VPC.{Name,Subnets}`,
`Spec.Permit.External.{Name,Prefixes}`. -/
structure ExternalPeering where
  name : String
  permitVPC : String
  permitSubnets : List String
  permitPrefixes : List String
  externalName : String
deriving DecidableEq

/-- Mirrors the default-route scan at lines 442-448. -/
def includesDefaultRoute (p : ExternalPeering) : Bool :=
  p.permitPrefixes.contains ("0.0.0.0/0")

/-- The subnet loop for one server and one external peering
(lines 459-472): at a matching subnet, an external name not yet bound errors
if some other external peering is already bound, otherwise binds; an already
bound name is skipped silently. -/
def bindSubnets (p : ExternalPeering) : List String → Server → Except String Server
  | [], s => .ok s
  | sub :: rest, s =>
    if s.subnet == sub then
      if s.externals.contains p.externalName then bindSubnets p rest s
      else if s.externalPeering.isSome then
        .error "server has multiple external peerings, not supported for testing"
      else bindSubnets p rest
        { s with externalPeering := some p.name,
                 externals := s.externals ++ [p.externalName] }
    else bindSubnets p rest s

/-- One server under one external peering (lines 454-457 VPC filter plus the
subnet loop). -/
def bindExtServer (p : ExternalPeering) (s : Server) : Except String Server :=
  if s.vpc == p.permitVPC then bindSubnets p p.permitSubnets s else .ok s

/-- The server loop for one external peering (lines 454-473). -/
def bindExtServers (p : ExternalPeering) : List Server → Except String (List Server)
  | [] => .ok []
  | s :: rest =>
    match bindExtServer p s with
    | .error e => .error e
    | .ok s' =>
      match bindExtServers p rest with
      | .error e => .error e
      | .ok rest' => .ok (s' :: rest')

/-- The external-peering loop of Phase C (lines 438-474): default-route check
first (fatal if missing), then binding over all servers. -/
def bindExternals : List ExternalPeering → List Server → Except String (List Server)
  | [], ss => .ok ss
  | p :: rest, ss =>
    if includesDefaultRoute p then
      match bindExtServers p ss with
      | .error e => .error e
      | .ok ss' => bindExternals rest ss'
    else .error "external peering doesn't include default route, not supported for testing"

/-- A server fresh out of Phase B: no external bound yet (lines 292-297 build
the record with zero values for `Externals` and `ExternalPeering`). -/
def Unbound (s : Server) : Prop := s.externalPeering = none ∧ s.externals = []

/-- The server carries exactly the one external `n` (the state after a
successful bind). -/
def BoundAs (s : Server) (n : String) : Prop :=
  s.externalPeering.isSome = true ∧ s.externals = [n]

/-- The permit of `p` matches server `s`: same VPC and a listed subnet. -/
def permitMatches (p : ExternalPeering) (s : Server) : Prop :=
  s.vpc = p.permitVPC ∧ s.subnet ∈ p.permitSubnets

/-! ## Shared helper lemmas -/

theorem hasPref_self_append (p l : List Char) : hasPref p (p ++ l) = true := by
  induction p with
  | nil => rfl
  | cons a t ih => simp [hasPref, ih]

theorem lookup_append_of_none {α β : Type} [BEq α] (a : α) (l r : List (α × β))
    (h : List.lookup a l = none) : List.lookup a (l ++ r) = List.lookup a r := by
  induction l with
  | nil => rfl
  | cons p t ih =>
    simp only [List.lookup, List.cons_append] at h ⊢
    cases hb : (a == p.1) with
    | true => simp [hb] at h
    | false => simp [hb] at h ⊢; exact ih h

theorem lookup_append_of_some {α β : Type} [BEq α] (a : α) (l r : List (α × β))
    {b : β} (h : List.lookup a l = some b) : List.lookup a (l ++ r) = some b := by
  induction l with
  | nil => simp [List.lookup] at h
  | cons p t ih =>
    simp only [List.lookup, List.cons_append] at h ⊢
    cases hb : (a == p.1) with
    | true => simp [hb] at h ⊢; exact h
    | false => simp [hb] at h ⊢; exact ih h

/-! ## C1: ping classification -/

/-- Claim C1 counterexample: with connectivity not expected and the remote
ping command failing with EMPTY output, the code classifies the check as
PASSED (`len(out) > 0` guards the mismatch branch), while the claim's table
says this must fail. -/
theorem c1_counterexample : pingVerdict false true [] = .ok true := rfl

/-- Claim C1 (amended): the ping decision table as the code implements it —
expected+success passes, expected+failure fails, unexpected+success fails,
unexpected+failure passes when the output contains the 100%-packet-loss
marker OR is empty, and fails only for non-empty output lacking the
marker. -/
theorem c1_ping_classification :
    (∀ out, pingVerdict true false out = .ok true)
  ∧ (∀ out, pingVerdict true true out = .ok false)
  ∧ (∀ out, pingVerdict false false out = .ok false)
  ∧ (∀ out, containsSub out pingLossMsg = true → pingVerdict false true out = .ok true)
  ∧ pingVerdict false true [] = .ok true
  ∧ (∀ out, out ≠ [] → containsSub out pingLossMsg = false →
      pingVerdict false true out = .ok false) := by
  refine ⟨?_, ?_, ?_, ?_, rfl, ?_⟩
  · intro out; simp [pingVerdict]
  · intro out; simp [pingVerdict]
  · intro out; simp [pingVerdict]
  · intro out h; simp [pingVerdict, h]
  · intro out h1 h2
    cases out with
    | nil => exact absurd rfl h1
    | cons c t => simp [pingVerdict, h2]

/-- Witness for `c1_ping_classification`: the last two rows at concrete
outputs. -/
theorem c1_witness :
    containsSub (("--- 0 received, 100% packet loss ---").data) pingLossMsg = true
    ∧ pingVerdict false true (("--- 0 received, 100% packet loss ---").data) = .ok true
    ∧ (['x'] ≠ ([] : List Char))
    ∧ containsSub ['x'] pingLossMsg = false
    ∧ pingVerdict false true ['x'] = .ok false := by
  refine ⟨by decide, c1_ping_classification.2.2.2.1 _ (by decide), by decide, by decide,
    c1_ping_classification.2.2.2.2.2 _ (by decide) (by decide)⟩

/-! ## C5: port-name to interface index -/

/-- Claim C5 counterexample: `Ethernet<N>` with `N` a decimal integer beyond
the 64-bit `int` range is an error (Go `strconv.Atoi` range failure), not
index `N+1` as the unrestricted claim states. -/
theorem c5_counterexample :
    portIdForName (("Ethernet9223372036854775808").data)
      = .error "error converting port name to port id" := rfl

/-- Claim C5 (amended): names beginning `Management0` map to index 0;
`Ethernet<N>` maps to `N+1`, `port<N>` and `enp2s<N>` to `N`, for any suffix
Go's `strconv.Atoi` accepts (decimal integer within the 64-bit `int` range,
captured by `goAtoi`); a name matching none of the four prefixes is an
error; and the spec's five concrete examples. -/
theorem c5_port_naming :
    (∀ rest, portIdForName (("Management0").data ++ rest) = .ok 0)
  ∧ (∀ ds n, goAtoi ds = some n → portIdForName (("Ethernet").data ++ ds) = .ok (n + 1))
  ∧ (∀ ds n, goAtoi ds = some n → portIdForName (("port").data ++ ds) = .ok n)
  ∧ (∀ ds n, goAtoi ds = some n → portIdForName (("enp2s").data ++ ds) = .ok n)
  ∧ (∀ name, hasPref (("Management0").data) name = false →
      hasPref (("Ethernet").data) name = false →
      hasPref (("port").data) name = false →
      hasPref (("enp2s").data) name = false →
      portIdForName name = .error "unsupported port name")
  ∧ portIdForName (("Management0/0").data) = .ok 0
  ∧ portIdForName (("Ethernet4").data) = .ok 5
  ∧ portIdForName (("port3").data) = .ok 3
  ∧ portIdForName (("enp2s7").data) = .ok 7
  ∧ portIdForName (("weird0").data) = .error "unsupported port name" := by
  refine ⟨?_, ?_, ?_, ?_, ?_, rfl, rfl, rfl, rfl, rfl⟩
  · intro rest; rfl
  · intro ds n h
    have e1 : portIdForName (("Ethernet").data ++ ds)
        = match goAtoi ds with
          | some idx => .ok (idx + 1)
          | none => .error "error converting port name to port id" := rfl
    rw [e1, h]
  · intro ds n h
    have e1 : portIdForName (("port").data ++ ds)
        = match goAtoi ds with
          | some idx => .ok idx
          | none => .error "error converting port name to port id" := rfl
    rw [e1, h]
  · intro ds n h
    have e1 : portIdForName (("enp2s").data ++ ds)
        = match goAtoi ds with
          | some idx => .ok idx
          | none => .error "error converting port name to port id" := rfl
    rw [e1, h]
  · intro name h1 h2 h3 h4
    simp [portIdForName, h1, h2, h3, h4]

/-- Witness for `c5_port_naming`: the parameterized rules at concrete
suffixes. -/
theorem c5_witness :
    goAtoi (("12").data) = some 12
    ∧ portIdForName (("Ethernet12").data) = .ok 13
    ∧ portIdForName (("port12").data) = .ok 12
    ∧ portIdForName (("enp2s12").data) = .ok 12
    ∧ portIdForName (("Management0xyz").data) = .ok 0
    ∧ portIdForName (("weird1").data) = .error "unsupported port name" := by
  refine ⟨rfl, ?_, ?_, ?_, ?_, ?_⟩
  · exact c5_port_naming.2.1 (("12").data) 12 rfl
  · exact c5_port_naming.2.2.1 (("12").data) 12 rfl
  · exact c5_port_naming.2.2.2.1 (("12").data) 12 rfl
  · exact c5_port_naming.1 (("xyz").data)
  · exact c5_port_naming.2.2.2.2.1 (("weird1").data) rfl rfl rfl rfl

/-! ## C8: iperf throughput floor -/

/-- Claim C8: for a successfully parsed client report (and a successful
client command), sent bits-per-second strictly below 8,500,000,000 fails the
pair, at or above does not fail it on the speed criterion, and exactly
8,500,000,000 passes. -/
theorem c8_iperf_floor :
    (∀ r : Iperf3Report, r.endSum.sumSent.bitsPerSecond < 8500000000 →
        iperfClientPassed false (some r) = false)
  ∧ (∀ r : Iperf3Report, 8500000000 ≤ r.endSum.sumSent.bitsPerSecond →
        iperfClientPassed false (some r) = true)
  ∧ (∀ r : Iperf3Report, r.endSum.sumSent.bitsPerSecond = 8500000000 →
        iperfClientPassed false (some r) = true) := by
  refine ⟨?_, ?_, ?_⟩
  · intro r h; simp [iperfClientPassed, iperfSpeedFloor, h]
  · intro r h; simp [iperfClientPassed, iperfSpeedFloor, not_lt.mpr h]
  · intro r h; simp [iperfClientPassed, iperfSpeedFloor, h]

/-- Witness for `c8_iperf_floor`: a report at exactly the floor passes; one
just below fails. -/
theorem c8_witness :
    iperfClientPassed false (some ⟨[], ⟨⟨0, 8500000000⟩, ⟨0, 0⟩⟩⟩) = true
    ∧ iperfClientPassed false (some ⟨[], ⟨⟨0, 8499999999⟩, ⟨0, 0⟩⟩⟩) = false := by
  constructor
  · exact c8_iperf_floor.2.2 ⟨[], ⟨⟨0, 8500000000⟩, ⟨0, 0⟩⟩⟩ rfl
  · exact c8_iperf_floor.1 ⟨[], ⟨⟨0, 8499999999⟩, ⟨0, 0⟩⟩⟩ (by norm_num)

/-! ## C2: NAT connections abort compilation -/

/-- Claim C2 evaluation: a minimal wiring (one control node, one switch, one
NAT connection on the switch) makes `NewVMManager` fail with the
`AddLink` nil-local-port error — the loop at lines 994-1003 calls `AddLink`
with the swapped (nil) argument unconditionally — whereas the claim (and the
spec's "if present") says the missing remote direction is simply not added.
The second conjunct shows the switch-side direction alone compiles fine. -/
theorem c2_nat_aborts_compilation :
    NewVMManager ⟨⟨⟨0, 0, 0⟩, ⟨0, 0, 0⟩, ⟨0, 0, 0⟩⟩, []⟩
      ⟨[⟨"control-1", ServerType.control⟩], ["switch-1"],
        [⟨"conn-nat", ConnSpec.natConn ⟨"switch-1", ("Ethernet0").data⟩⟩]⟩
      "base" VM_SIZE_DEFAULT = .error "local port can't be nil"
    ∧ (∃ m, VMManager.AddLink
        ⟨⟨⟨⟨0, 0, 0⟩, ⟨0, 0, 0⟩, ⟨0, 0, 0⟩⟩, []⟩,
          [("switch-1", ⟨1, "switch-1", VMType.switchVS, "", ⟨0, 0, 0⟩, []⟩)]⟩
        (some ⟨"switch-1", ("Ethernet0").data⟩) none ("conn-nat") = .ok m) :=
  ⟨rfl, ⟨_, rfl⟩⟩

/-! ## C3: multiple VPC attachments do not skip the server -/

/-- Claim C3 evaluation: with two attachments both referencing the server's
qualifying connection, the Phase B loop logs "Skipping server (multiple VPC
attachments)" but only `continue`s the inner attachment loop: the first
attachment stays bound and the server remains in the test universe, contrary
to the claim (and to the code's own log message). -/
theorem c3_multi_attachment_keeps_server :
    bindVPCAttachment ("conn-1")
      [⟨"att-1", "conn-1", "vpc-1", "default"⟩, ⟨"att-2", "conn-1", "vpc-2", "other"⟩]
      = some ⟨"att-1", "conn-1", "vpc-1", "default"⟩
    ∧ phaseBKeepsServer ("conn-1")
      [⟨"att-1", "conn-1", "vpc-1", "default"⟩, ⟨"att-2", "conn-1", "vpc-2", "other"⟩]
      = true :=
  ⟨rfl, rfl⟩

/-! ## C7: gap filling -/

theorem le_foldl_max (l : List (Int × VMInterface)) (a : Int) :
    a ≤ l.foldl (fun x p => max x p.1) a := by
  induction l generalizing a with
  | nil => exact le_refl a
  | cons p t ih => exact le_trans (le_max_left a p.1) (ih (max a p.1))

theorem maxIfaceKey_nonneg (ifs : List (Int × VMInterface)) : 0 ≤ maxIfaceKey ifs :=
  le_foldl_max ifs 0

theorem mem_le_foldl_max {l : List (Int × VMInterface)} {i : Int}
    {v : VMInterface} (h : (i, v) ∈ l) :
    ∀ a : Int, i ≤ l.foldl (fun x p => max x p.1) a := by
  induction h with
  | head t => intro a; exact le_trans (le_max_right a i) (le_foldl_max t (max a i))
  | tail p _ ih => intro a; exact ih (max a p.1)

theorem lookup_some_mem {α β : Type} [BEq α] [LawfulBEq α] {a : α} {b : β}
    {l : List (α × β)} (h : List.lookup a l = some b) : (a, b) ∈ l := by
  induction l with
  | nil => simp [List.lookup] at h
  | cons p t ih =>
    simp only [List.lookup] at h
    cases hb : (a == p.1) with
    | true =>
      simp [hb] at h
      have : a = p.1 := eq_of_beq hb
      subst this; subst h
      exact List.mem_cons_self _ _
    | false =>
      simp [hb] at h
      exact List.mem_cons_of_mem _ (ih h)

theorem lookup_const_map_mem (l : List Int) (i : Int) (h : i ∈ l) :
    List.lookup i (l.map fun j => (j, VMInterface.empty)) = some VMInterface.empty := by
  induction l with
  | nil => cases h
  | cons j t ih =>
    simp only [List.map, List.lookup]
    cases hb : (i == j) with
    | true => rfl
    | false =>
      have : i ≠ j := by intro e; subst e; simp at hb
      cases h with
      | head => exact absurd rfl this
      | tail _ h' => simpa [hb] using ih h'

/-- Claim C7: after the gap-filling pass every index from 0 to the VM's
maximum assigned index is present, missing indices are filled with the
placeholder `VMInterface{}`, assigned indices keep their descriptor, and
gap-filling an already-dense interface map changes nothing. -/
theorem c7_gap_filling (vm : VM) :
    (∀ i : Nat, i ≤ (maxIfaceKey vm.interfaces).toNat →
      (List.lookup (Int.ofNat i) (fillGapsVM vm).interfaces).isSome = true)
  ∧ (∀ i : Nat, i ≤ (maxIfaceKey vm.interfaces).toNat →
      List.lookup (Int.ofNat i) vm.interfaces = none →
      List.lookup (Int.ofNat i) (fillGapsVM vm).interfaces = some VMInterface.empty)
  ∧ (∀ i : Int, ∀ v, List.lookup i vm.interfaces = some v →
      List.lookup i (fillGapsVM vm).interfaces = some v)
  ∧ (denseIfaces vm.interfaces → fillGapsVM vm = vm) := by
  have fillMissing : ∀ i : Nat, i ≤ (maxIfaceKey vm.interfaces).toNat →
      List.lookup (Int.ofNat i) vm.interfaces = none →
      List.lookup (Int.ofNat i) (fillGapsVM vm).interfaces = some VMInterface.empty := by
    intro i hi hnone
    show List.lookup (Int.ofNat i) (fillGapsIfaces vm.interfaces) = some VMInterface.empty
    rw [fillGapsIfaces, lookup_append_of_none _ _ _ hnone]
    apply lookup_const_map_mem
    rw [List.mem_filter]
    refine ⟨List.mem_map.mpr ⟨i, List.mem_range.mpr (Nat.lt_succ_of_le hi), rfl⟩, ?_⟩
    show (List.lookup (Int.ofNat i) vm.interfaces).isNone = true
    rw [hnone]; rfl
  refine ⟨?_, fillMissing, ?_, ?_⟩
  · intro i hi
    cases hsome : List.lookup (Int.ofNat i) vm.interfaces with
    | some v =>
      show (List.lookup (Int.ofNat i) (fillGapsIfaces vm.interfaces)).isSome = true
      rw [fillGapsIfaces, lookup_append_of_some _ _ _ hsome]
      rfl
    | none => rw [fillMissing i hi hsome]; rfl
  · intro i v h
    show List.lookup i (fillGapsIfaces vm.interfaces) = some v
    rw [fillGapsIfaces]
    exact lookup_append_of_some _ _ _ h
  · intro hdense
    have hfil : ((List.map Int.ofNat
        (List.range ((maxIfaceKey vm.interfaces).toNat + 1))).filter
        fun i => (List.lookup i vm.interfaces).isNone) = [] := by
      rw [List.filter_eq_nil_iff]
      intro j hj
      rcases List.mem_map.mp hj with ⟨i, hi, rfl⟩
      have hds := hdense i (List.mem_range.mp hi)
      cases hl : List.lookup (Int.ofNat i) vm.interfaces with
      | none => rw [hl] at hds; simp at hds
      | some _ => simp [hl]
    show fillGapsVM vm = vm
    rw [fillGapsVM, fillGapsIfaces, hfil]
    simp

/-- Witness for `c7_gap_filling`: a VM with interfaces at 0 and 2 gets the
placeholder at 1; an already-dense map is returned unchanged. -/
theorem c7_witness :
    List.lookup (1 : Int)
      (fillGapsVM ⟨0, "s", VMType.server, "", ⟨0, 0, 0⟩,
        [(0, ⟨"host", none, none⟩), (2, ⟨"c", none, none⟩)]⟩).interfaces
      = some VMInterface.empty
    ∧ fillGapsVM ⟨0, "s", VMType.server, "", ⟨0, 0, 0⟩, [(0, ⟨"host", none, none⟩)]⟩
      = ⟨0, "s", VMType.server, "", ⟨0, 0, 0⟩, [(0, ⟨"host", none, none⟩)]⟩ := by
  constructor
  · exact (c7_gap_filling ⟨0, "s", VMType.server, "", ⟨0, 0, 0⟩,
      [(0, ⟨"host", none, none⟩), (2, ⟨"c", none, none⟩)]⟩).2.1 1 (by decide) (by decide)
  · exact (c7_gap_filling ⟨0, "s", VMType.server, "", ⟨0, 0, 0⟩,
      [(0, ⟨"host", none, none⟩)]⟩).2.2.2 (by unfold denseIfaces; decide)

/-! ## C4: VM ID assignment -/

theorem lookup_append_none {α β : Type} [BEq α] (a : α) (l r : List (α × β))
    (h : List.lookup a (l ++ r) = none) :
    List.lookup a l = none ∧ List.lookup a r = none := by
  induction l with
  | nil => exact ⟨rfl, h⟩
  | cons p t ih =>
    simp only [List.cons_append, List.lookup] at h ⊢
    cases hb : (a == p.1) with
    | true => simp [hb] at h
    | false =>
      simp only [hb] at h ⊢
      exact ih h

theorem buildVMs_map_fst (mk : String → Nat → VM) (ns : List String) :
    ∀ id, (buildVMs mk ns id).map Prod.fst = ns := by
  induction ns with
  | nil => intro id; rfl
  | cons n rest ih => intro id; simp only [buildVMs, List.map]; rw [ih]

theorem buildVMs_map_id (mk : String → Nat → VM) (hmk : ∀ n i, (mk n i).id = i)
    (ns : List String) :
    ∀ id, (buildVMs mk ns id).map (fun p => p.2.id) = List.range' id ns.length := by
  induction ns with
  | nil => intro id; rfl
  | cons n rest ih =>
    intro id
    simp only [buildVMs, List.map, List.length_cons, List.range']
    rw [ih, hmk]

theorem buildVMs_length (mk : String → Nat → VM) (ns : List String) :
    ∀ id, (buildVMs mk ns id).length = ns.length := by
  induction ns with
  | nil => intro id; rfl
  | cons n rest ih => intro id; simp only [buildVMs, List.length_cons]; rw [ih]

theorem lookup_buildVMs_none (mk : String → Nat → VM) (ns : List String)
    (m : String) (h : m ∉ ns) :
    ∀ id, List.lookup m (buildVMs mk ns id) = none := by
  induction ns with
  | nil => intro id; rfl
  | cons n rest ih =>
    intro id
    have h1 : (m == n) = false :=
      beq_eq_false_iff_ne.mpr fun e => h (e ▸ List.mem_cons_self n rest)
    simp only [buildVMs, List.lookup, h1]
    exact ih (fun hm => h (List.mem_cons_of_mem _ hm)) (id + 1)

theorem lookup_buildVMs_mem (mk : String → Nat → VM) (ns : List String)
    (m : String) (h : m ∈ ns) :
    ∀ id, (List.lookup m (buildVMs mk ns id)).isSome = true := by
  induction ns with
  | nil => cases h
  | cons n rest ih =>
    intro id
    simp only [buildVMs, List.lookup]
    cases hb : (m == n) with
    | true => rfl
    | false =>
      have hne : m ≠ n := beq_eq_false_iff_ne.mp hb
      cases List.mem_cons.mp h with
      | inl e => exact absurd e hne
      | inr hm => exact ih hm (id + 1)

theorem addVMs_ok (mk : String → Nat → VM) (ns : List String) :
    ∀ (vms : List (String × VM)) (id : Nat), ns.Nodup →
    (∀ n ∈ ns, List.lookup n vms = none) →
    addVMs mk ns vms id = .ok (vms ++ buildVMs mk ns id, id + ns.length) := by
  induction ns with
  | nil => intro vms id _ _; simp [addVMs, buildVMs]
  | cons n rest ih =>
    intro vms id hnd hfresh
    have h1 : List.lookup n vms = none := hfresh n (List.mem_cons_self n rest)
    have hfresh' : ∀ m ∈ rest, List.lookup m (vms ++ [(n, mk n id)]) = none := by
      intro m hm
      have hne : (m == n) = false :=
        beq_eq_false_iff_ne.mpr fun e => (List.nodup_cons.mp hnd).1 (e ▸ hm)
      rw [lookup_append_of_none _ _ _ (hfresh m (List.mem_cons_of_mem _ hm))]
      simp [List.lookup, hne]
    simp only [addVMs, h1, Option.isSome_none, Bool.false_eq_true, if_false]
    rw [ih _ _ (List.nodup_cons.mp hnd).2 hfresh']
    simp only [buildVMs, List.append_assoc, List.singleton_append, List.length_cons]
    have harith : id + 1 + rest.length = id + (rest.length + 1) := by omega
    rw [harith]

theorem addVMs_ok_inv (mk : String → Nat → VM) (ns : List String) :
    ∀ (vms : List (String × VM)) (id : Nat) (vms' : List (String × VM)) (id' : Nat),
    addVMs mk ns vms id = .ok (vms', id') →
    ns.Nodup ∧ (∀ n ∈ ns, List.lookup n vms = none)
      ∧ vms' = vms ++ buildVMs mk ns id ∧ id' = id + ns.length := by
  induction ns with
  | nil =>
    intro vms id vms' id' h
    simp only [addVMs, Except.ok.injEq, Prod.mk.injEq] at h
    refine ⟨List.nodup_nil, by simp, ?_, ?_⟩
    · rw [← h.1]; simp [buildVMs]
    · rw [← h.2]; simp [buildVMs]
  | cons n rest ih =>
    intro vms id vms' id' h
    cases hlk : List.lookup n vms with
    | some v => simp [addVMs, hlk] at h
    | none =>
      simp only [addVMs, hlk, Option.isSome_none, Bool.false_eq_true, if_false] at h
      obtain ⟨hnd, hfresh, hv, hid⟩ := ih _ _ _ _ h
      have hn_rest : n ∉ rest := by
        intro hmem
        have hx := hfresh n hmem
        rw [lookup_append_of_none _ _ _ hlk] at hx
        simp [List.lookup] at hx
      refine ⟨List.nodup_cons.mpr ⟨hn_rest, hnd⟩, ?_, ?_, ?_⟩
      · intro m hm
        cases List.mem_cons.mp hm with
        | inl e => exact e ▸ hlk
        | inr hm' => exact (lookup_append_none _ _ _ (hfresh m hm')).1
      · rw [hv]
        simp only [buildVMs, List.append_assoc, List.singleton_append]
      · rw [hid]
        simp only [List.length_cons]
        omega

theorem filter_default_eq (servers : List ServerDev) :
    servers.filter (fun s => s.typ == ServerType.default)
      = servers.filter fun s => !(s.typ == ServerType.control) := by
  apply List.filter_congr
  intro s _
  cases s.typ <;> rfl

theorem server_names_perm (servers : List ServerDev) :
    (((servers.filter fun s => s.typ == ServerType.control).map ServerDev.name)
      ++ ((servers.filter fun s => s.typ == ServerType.default).map ServerDev.name)).Perm
      (servers.map ServerDev.name) := by
  rw [filter_default_eq, ← List.map_append]
  exact (List.filter_append_perm _ servers).map ServerDev.name

theorem server_names_length (servers : List ServerDev) :
    ((servers.filter fun s => s.typ == ServerType.control).map ServerDev.name).length
      + ((servers.filter fun s => s.typ == ServerType.default).map ServerDev.name).length
      = servers.length := by
  have := (server_names_perm servers).length_eq
  simp only [List.length_append, List.length_map] at this
  simpa using this

/-- Claim C4: with exactly one control device and no duplicate names among
servers and switches, ID assignment succeeds and the IDs form the contiguous
range `[0, deviceCount)` — control at ID 0 and first in the registry, then
plain servers in iteration order, then software switches; zero or several
control devices, or a duplicate name, fail with no registry produced (the
`Except` carries only the error). -/
theorem c4_vm_id_assignment (cfg : VMsCfg) (servers : List ServerDev)
    (switches : List String) :
    ((∃ r, assignVMs cfg servers switches = .ok r) ↔
      ((servers.filter fun s => s.typ == ServerType.control).length = 1
        ∧ (servers.map ServerDev.name ++ switches).Nodup))
  ∧ (∀ vms n, assignVMs cfg servers switches = .ok (vms, n) →
      n = servers.length + switches.length
      ∧ vms.map (fun p => p.2.id) = List.range n
      ∧ vms.map Prod.fst
          = ((servers.filter fun s => s.typ == ServerType.control).map ServerDev.name)
            ++ ((servers.filter fun s => s.typ == ServerType.default).map ServerDev.name)
            ++ switches
      ∧ (∃ cvm tl, vms = (cvm.name, cvm) :: tl
          ∧ cvm.id = 0 ∧ cvm.typ = VMType.control)) := by
  have hinv : ∀ vms n, assignVMs cfg servers switches = .ok (vms, n) →
      ((servers.filter fun s => s.typ == ServerType.control).map ServerDev.name).length = 1
      ∧ ((((servers.filter fun s => s.typ == ServerType.control).map ServerDev.name)
          ++ ((servers.filter fun s => s.typ == ServerType.default).map ServerDev.name)
          ++ switches)).Nodup
      ∧ vms = buildVMs (mkControlVM cfg.control)
            ((servers.filter fun s => s.typ == ServerType.control).map ServerDev.name) 0
          ++ buildVMs (mkServerVM cfg.server)
            ((servers.filter fun s => s.typ == ServerType.default).map ServerDev.name) 1
          ++ buildVMs (mkSwitchVM cfg.switchCfg) switches
            (1 + ((servers.filter fun s => s.typ == ServerType.default).map ServerDev.name).length)
      ∧ n = 1 + ((servers.filter fun s => s.typ == ServerType.default).map ServerDev.name).length
          + switches.length := by
    intro vms n h
    unfold assignVMs at h
    cases h1 : addVMs (mkControlVM cfg.control)
        ((servers.filter fun s => s.typ == ServerType.control).map ServerDev.name) [] 0 with
    | error e => simp [h1] at h
    | ok p1 =>
      obtain ⟨vms1, id1⟩ := p1
      simp only [h1] at h
      obtain ⟨hndC, _, hv1, hid1⟩ := addVMs_ok_inv _ _ _ _ _ _ h1
      simp only [List.nil_append] at hv1
      by_cases hz : id1 = 0
      · simp [hz] at h
      · rw [if_neg (by simpa using hz)] at h
        by_cases hgt : 1 < id1
        · simp [hgt] at h
        · rw [if_neg hgt] at h
          have hid1' : id1 = 1 := by omega
          cases h2 : addVMs (mkServerVM cfg.server)
              ((servers.filter fun s => s.typ == ServerType.default).map ServerDev.name)
              vms1 id1 with
          | error e => simp [h2] at h
          | ok p2 =>
            obtain ⟨vms2, id2⟩ := p2
            simp only [h2] at h
            obtain ⟨hndD, hfreshD, hv2, hid2⟩ := addVMs_ok_inv _ _ _ _ _ _ h2
            cases h3 : addVMs (mkSwitchVM cfg.switchCfg) switches vms2 id2 with
            | error e => simp [h3] at h
            | ok p3 =>
              obtain ⟨vms3, id3⟩ := p3
              simp only [h3] at h
              obtain ⟨hndS, hfreshS, hv3, hid3⟩ := addVMs_ok_inv _ _ _ _ _ _ h3
              simp only [Except.ok.injEq, Prod.mk.injEq] at h
              obtain ⟨hveq, hneq⟩ := h
              have hctrl1 : ((servers.filter fun s => s.typ == ServerType.control).map
                  ServerDev.name).length = 1 := by omega
              have hdisjCD : ∀ m ∈ (servers.filter fun s => s.typ == ServerType.default).map
                  ServerDev.name,
                  m ∉ (servers.filter fun s => s.typ == ServerType.control).map ServerDev.name := by
                intro m hm hmem
                have := hfreshD m hm
                rw [hv1] at this
                have hs := lookup_buildVMs_mem (mkControlVM cfg.control) _ m hmem 0
                rw [this] at hs
                cases hs
              have hdisjS : ∀ m ∈ switches,
                  m ∉ (servers.filter fun s => s.typ == ServerType.control).map ServerDev.name
                  ∧ m ∉ (servers.filter fun s => s.typ == ServerType.default).map ServerDev.name := by
                intro m hm
                have hx := hfreshS m hm
                rw [hv2, hv1] at hx
                obtain ⟨hxa, hxb⟩ := lookup_append_none _ _ _ hx
                constructor
                · intro hmem
                  have hs := lookup_buildVMs_mem (mkControlVM cfg.control) _ m hmem 0
                  rw [hxa] at hs
                  cases hs
                · intro hmem
                  have hs := lookup_buildVMs_mem (mkServerVM cfg.server) _ m hmem id1
                  rw [hxb] at hs
                  cases hs
              refine ⟨hctrl1, ?_, ?_, ?_⟩
              · rw [List.append_assoc, List.nodup_append]
                refine ⟨hndC, ?_, ?_⟩
                · rw [List.nodup_append]
                  exact ⟨hndD, hndS, fun m hm hmem => (hdisjS m hmem).2 hm⟩
                · intro m hmC
                  rw [List.mem_append]
                  rintro (hmD | hmS)
                  · exact hdisjCD m hmD hmC
                  · exact (hdisjS m hmS).1 hmC
              · rw [← hveq, hv3, hv2, hv1, hid2, hid1']
              · omega
  constructor
  · constructor
    · rintro ⟨⟨vms, n⟩, h⟩
      obtain ⟨hc1, hnd, _, _⟩ := hinv vms n h
      refine ⟨by simpa using hc1, ?_⟩
      rw [List.append_assoc] at hnd
      have hp : ((((servers.filter fun s => s.typ == ServerType.control).map ServerDev.name)
          ++ (((servers.filter fun s => s.typ == ServerType.default).map ServerDev.name)
          ++ switches))).Perm (servers.map ServerDev.name ++ switches) := by
        rw [← List.append_assoc]
        exact (server_names_perm servers).append_right switches
      exact hp.nodup_iff.mp hnd
    · rintro ⟨hc1, hnd⟩
      have hc1' : ((servers.filter fun s => s.typ == ServerType.control).map
          ServerDev.name).length = 1 := by simpa using hc1
      have hndFull : ((((servers.filter fun s => s.typ == ServerType.control).map ServerDev.name)
          ++ (((servers.filter fun s => s.typ == ServerType.default).map ServerDev.name)
          ++ switches))).Nodup := by
        have hp : ((((servers.filter fun s => s.typ == ServerType.control).map ServerDev.name)
            ++ (((servers.filter fun s => s.typ == ServerType.default).map ServerDev.name)
            ++ switches))).Perm (servers.map ServerDev.name ++ switches) := by
          rw [← List.append_assoc]
          exact (server_names_perm servers).append_right switches
        exact hp.nodup_iff.mpr hnd
      rw [List.nodup_append] at hndFull
      obtain ⟨hndC, hndDS, hdisjC⟩ := hndFull
      rw [List.nodup_append] at hndDS
      obtain ⟨hndD, hndS, hdisjDS⟩ := hndDS
      have hfD : ∀ m ∈ (servers.filter fun s => s.typ == ServerType.default).map
          ServerDev.name,
          List.lookup m ([] ++ buildVMs (mkControlVM cfg.control)
            ((servers.filter fun s => s.typ == ServerType.control).map ServerDev.name) 0)
          = none := by
        intro m hm
        simp only [List.nil_append]
        exact lookup_buildVMs_none _ _ m
          (fun hmem => hdisjC hmem (List.mem_append_left _ hm)) 0
      have hfS : ∀ m ∈ switches,
          List.lookup m (([] ++ buildVMs (mkControlVM cfg.control)
              ((servers.filter fun s => s.typ == ServerType.control).map ServerDev.name) 0)
            ++ buildVMs (mkServerVM cfg.server)
              ((servers.filter fun s => s.typ == ServerType.default).map ServerDev.name)
              (0 + ((servers.filter fun s => s.typ == ServerType.control).map
                ServerDev.name).length))
          = none := by
        intro m hm
        simp only [List.nil_append]
        rw [lookup_append_of_none _ _ _ (lookup_buildVMs_none _ _ m
          (fun hmem => hdisjC hmem (List.mem_append_right _ hm)) 0)]
        exact lookup_buildVMs_none _ _ m (fun hmem => hdisjDS hmem hm) _
      have hok : assignVMs cfg servers switches
          = .ok ((([] ++ buildVMs (mkControlVM cfg.control)
                ((servers.filter fun s => s.typ == ServerType.control).map ServerDev.name) 0)
              ++ buildVMs (mkServerVM cfg.server)
                ((servers.filter fun s => s.typ == ServerType.default).map ServerDev.name)
                (0 + ((servers.filter fun s => s.typ == ServerType.control).map
                  ServerDev.name).length))
            ++ buildVMs (mkSwitchVM cfg.switchCfg) switches
              (0 + ((servers.filter fun s => s.typ == ServerType.control).map
                  ServerDev.name).length
                + ((servers.filter fun s => s.typ == ServerType.default).map
                  ServerDev.name).length),
            0 + ((servers.filter fun s => s.typ == ServerType.control).map
                ServerDev.name).length
              + ((servers.filter fun s => s.typ == ServerType.default).map
                ServerDev.name).length
              + switches.length) := by
        unfold assignVMs
        rw [addVMs_ok _ _ [] 0 hndC (by simp)]
        dsimp only
        rw [if_neg (by rw [hc1']; decide), if_neg (by omega)]
        rw [addVMs_ok _ _ _ _ hndD hfD]
        dsimp only
        rw [addVMs_ok _ _ _ _ hndS hfS]
      exact ⟨_, hok⟩
  · intro vms n h
    obtain ⟨hc1, hnd, hv, hn⟩ := hinv vms n h
    obtain ⟨c, hc⟩ := List.length_eq_one.mp hc1
    have hlenEq : ((servers.filter fun s => s.typ == ServerType.control).map
        ServerDev.name).length
        + ((servers.filter fun s => s.typ == ServerType.default).map ServerDev.name).length
        = servers.length := server_names_length servers
    refine ⟨?_, ?_, ?_, ?_⟩
    · omega
    · rw [hv]
      simp only [List.map_append]
      rw [buildVMs_map_id _ (fun n i => rfl), buildVMs_map_id _ (fun n i => rfl),
        buildVMs_map_id _ (fun n i => rfl), hc]
      have e1 := List.range'_append 1
        ((servers.filter fun s => s.typ == ServerType.default).map ServerDev.name).length
        switches.length 1
      simp only [Nat.one_mul, Nat.zero_add] at e1
      rw [List.append_assoc, e1]
      have e2 := List.range'_append 0 1
        (switches.length
          + ((servers.filter fun s => s.typ == ServerType.default).map ServerDev.name).length) 1
      simp only [Nat.one_mul, Nat.zero_add] at e2
      simp only [List.length_singleton]
      rw [e2, List.range_eq_range']
      congr 1
      omega
    · rw [hv]
      simp only [List.map_append]
      rw [buildVMs_map_fst, buildVMs_map_fst, buildVMs_map_fst]
    · rw [hv, hc]
      exact ⟨mkControlVM cfg.control c 0, _, rfl, rfl, rfl⟩

/-- Witness for `c4_vm_id_assignment`: a control node, one plain server and
one switch compile to IDs 0, 1, 2 in that order. -/
theorem c4_witness :
    ∃ vms n, assignVMs ⟨⟨1, 1, 1⟩, ⟨1, 1, 1⟩, ⟨1, 1, 1⟩⟩
        [⟨"ctl", ServerType.control⟩, ⟨"srv", ServerType.default⟩] ["sw"]
        = .ok (vms, n)
      ∧ n = 3
      ∧ vms.map (fun p => p.2.id) = List.range 3
      ∧ vms.map Prod.fst = ["ctl", "srv", "sw"] := by
  have h := c4_vm_id_assignment ⟨⟨1, 1, 1⟩, ⟨1, 1, 1⟩, ⟨1, 1, 1⟩⟩
    [⟨"ctl", ServerType.control⟩, ⟨"srv", ServerType.default⟩] ["sw"]
  obtain ⟨⟨vms, n⟩, hok⟩ := h.1.mpr ⟨by decide, by decide⟩
  obtain ⟨hn, hid, hfst, _⟩ := h.2 vms n hok
  have hn3 : n = 3 := by simpa using hn
  refine ⟨vms, n, hok, hn3, ?_, ?_⟩
  · rw [hid, hn3]
  · simpa using hfst

/-! ## C6: link recording and UDP endpoint pairing -/

theorem lookup_updateVM_eq (vms : List (String × VM)) (name : String) (vm : VM)
    (h : (List.lookup name vms).isSome = true) :
    List.lookup name (updateVM vms name vm) = some vm := by
  induction vms with
  | nil => simp [List.lookup] at h
  | cons p t ih =>
    obtain ⟨k, v⟩ := p
    show List.lookup name ((match k == name with
      | true => (k, vm) | false => (k, v)) :: updateVM t name vm) = some vm
    cases hb : (k == name) with
    | true =>
      have he : k = name := eq_of_beq hb
      subst he
      simp [List.lookup]
    | false =>
      have h2 : (name == k) = false := by
        rw [beq_eq_false_iff_ne] at hb ⊢
        exact fun e => hb e.symm
      simp only [List.lookup, h2]
      apply ih
      simpa [List.lookup, h2] using h

theorem lookup_updateVM_ne (vms : List (String × VM)) (name other : String) (vm : VM)
    (h : other ≠ name) :
    List.lookup other (updateVM vms name vm) = List.lookup other vms := by
  induction vms with
  | nil => rfl
  | cons p t ih =>
    obtain ⟨k, v⟩ := p
    show List.lookup other ((match k == name with
      | true => (k, vm) | false => (k, v)) :: updateVM t name vm)
      = List.lookup other ((k, v) :: t)
    cases hb : (k == name) with
    | true =>
      have he : k = name := eq_of_beq hb
      subst he
      have h2 : (other == k) = false := beq_eq_false_iff_ne.mpr h
      simp only [List.lookup, h2]
      exact ih
    | false =>
      simp only [List.lookup]
      cases hob : (other == k) with
      | true => rfl
      | false => exact ih

/-- Claim C6: compiling one link between two distinct devices (both
directions via `AddLink` with swapped arguments, neither port configured for
passthrough) records an interface referencing the connection's name on both
endpoints, and the two software-transport UDP endpoints are mutually paired —
each side's `udp` port is its own deterministic
`base + vmID*vmMultiplier + ifaceIndex*ifaceMultiplier` value and its
`localaddr` is the other side's. -/
theorem c6_link_pairing (mngr : VMManager) (A B : IPort) (conn : String)
    (vmA vmB : VM) (ia ib : Int)
    (hA : List.lookup A.deviceName mngr.vms = some vmA)
    (hB : List.lookup B.deviceName mngr.vms = some vmB)
    (hne : B.deviceName ≠ A.deviceName)
    (hia : portIdForName A.localPortName = .ok ia)
    (hib : portIdForName B.localPortName = .ok ib)
    (hfreeA : List.lookup ia vmA.interfaces = none)
    (hfreeB : List.lookup ib vmB.interfaces = none)
    (hptA : List.lookup A.portName mngr.cfg.links = none)
    (hptB : List.lookup B.portName mngr.cfg.links = none) :
    ∃ m1 m2, mngr.AddLink (some A) (some B) conn = .ok m1
      ∧ m1.AddLink (some B) (some A) conn = .ok m2
      ∧ ∃ vmA' vmB',
          List.lookup A.deviceName m2.vms = some vmA'
          ∧ List.lookup B.deviceName m2.vms = some vmB'
          ∧ List.lookup ia vmA'.interfaces = some
              ⟨conn, some (Netdev.socketUdp (vmA.ifacePortFor ia)
                (some (vmB.ifacePortFor ib))), none⟩
          ∧ List.lookup ib vmB'.interfaces = some
              ⟨conn, some (Netdev.socketUdp (vmB.ifacePortFor ib)
                (some (vmA.ifacePortFor ia))), none⟩
          ∧ vmA.ifacePortFor ia
              = IF_PORT_BASE + (vmA.id : Int) * IF_PORT_VM_ID_MULT + ia * IF_PORT_PORT_ID_MULT
          ∧ vmB.ifacePortFor ib
              = IF_PORT_BASE + (vmB.id : Int) * IF_PORT_VM_ID_MULT + ib * IF_PORT_PORT_ID_MULT := by
  have hAsome : (List.lookup A.deviceName mngr.vms).isSome = true := by rw [hA]; rfl
  have h1 : mngr.AddLink (some A) (some B) conn
      = .ok ⟨mngr.cfg, updateVM mngr.vms A.deviceName
          { vmA with interfaces := vmA.interfaces
            ++ [(ia, ⟨conn, some (Netdev.socketUdp (vmA.ifacePortFor ia)
              (some (vmB.ifacePortFor ib))), none⟩)] }⟩ := by
    simp only [VMManager.AddLink, resolveDest, hA, hia, hB, hib, hfreeA, hptA,
      Option.isSome_none, Bool.false_eq_true, if_false, Option.map_some']
  set vmA' : VM := { vmA with interfaces := vmA.interfaces
    ++ [(ia, ⟨conn, some (Netdev.socketUdp (vmA.ifacePortFor ia)
      (some (vmB.ifacePortFor ib))), none⟩)] } with hvmA'
  have hBm1 : List.lookup B.deviceName (updateVM mngr.vms A.deviceName vmA') = some vmB := by
    rw [lookup_updateVM_ne _ _ _ _ hne]
    exact hB
  have hAm1 : List.lookup A.deviceName (updateVM mngr.vms A.deviceName vmA') = some vmA' :=
    lookup_updateVM_eq _ _ _ hAsome
  have h2 : VMManager.AddLink ⟨mngr.cfg, updateVM mngr.vms A.deviceName vmA'⟩
      (some B) (some A) conn
      = .ok ⟨mngr.cfg, updateVM (updateVM mngr.vms A.deviceName vmA') B.deviceName
          { vmB with interfaces := vmB.interfaces
            ++ [(ib, ⟨conn, some (Netdev.socketUdp (vmB.ifacePortFor ib)
              (some (vmA'.ifacePortFor ia))), none⟩)] }⟩ := by
    simp only [VMManager.AddLink, resolveDest, hBm1, hAm1, hib, hia, hfreeB, hptB,
      Option.isSome_none, Bool.false_eq_true, if_false, Option.map_some']
  set vmB' : VM := { vmB with interfaces := vmB.interfaces
    ++ [(ib, ⟨conn, some (Netdev.socketUdp (vmB.ifacePortFor ib)
      (some (vmA'.ifacePortFor ia))), none⟩)] } with hvmB'
  have hBsome1 : (List.lookup B.deviceName (updateVM mngr.vms A.deviceName vmA')).isSome
      = true := by rw [hBm1]; rfl
  refine ⟨_, _, h1, h2, vmA', vmB', ?_, ?_, ?_, ?_, rfl, rfl⟩
  · show List.lookup A.deviceName
      (updateVM (updateVM mngr.vms A.deviceName vmA') B.deviceName vmB') = some vmA'
    rw [lookup_updateVM_ne _ _ _ _ (Ne.symm hne)]
    exact hAm1
  · exact lookup_updateVM_eq _ _ _ hBsome1
  · rw [hvmA']
    show List.lookup ia (vmA.interfaces ++ [(ia, _)]) = _
    rw [lookup_append_of_none _ _ _ hfreeA]
    simp [List.lookup]
  · rw [hvmB']
    show List.lookup ib (vmB.interfaces ++ [(ib, _)]) = _
    rw [lookup_append_of_none _ _ _ hfreeB]
    simp [List.lookup]
    rfl

/-- Witness for `c6_link_pairing`: a two-VM manager, server port `port0`
against switch port `Ethernet0`. -/
theorem c6_witness :
    ∃ m1 m2,
      VMManager.AddLink
        ⟨⟨⟨⟨1, 1, 1⟩, ⟨1, 1, 1⟩, ⟨1, 1, 1⟩⟩, []⟩,
          [("srv", ⟨1, "srv", VMType.server, "", ⟨1, 1, 1⟩, []⟩),
           ("sw", ⟨2, "sw", VMType.switchVS, "", ⟨1, 1, 1⟩, []⟩)]⟩
        (some ⟨"srv", ("port0").data⟩) (some ⟨"sw", ("Ethernet0").data⟩) ("conn-1")
        = .ok m1
      ∧ m1.AddLink (some ⟨"sw", ("Ethernet0").data⟩) (some ⟨"srv", ("port0").data⟩)
          ("conn-1") = .ok m2
      ∧ ∃ vmA' vmB',
          List.lookup "srv" m2.vms = some vmA'
          ∧ List.lookup "sw" m2.vms = some vmB'
          ∧ List.lookup (0 : Int) vmA'.interfaces = some
              ⟨"conn-1", some (Netdev.socketUdp 30100 (some 30201)), none⟩
          ∧ List.lookup (1 : Int) vmB'.interfaces = some
              ⟨"conn-1", some (Netdev.socketUdp 30201 (some 30100)), none⟩ := by
  obtain ⟨m1, m2, e1, e2, vmA', vmB', l1, l2, l3, l4, _, _⟩ :=
    c6_link_pairing
      ⟨⟨⟨⟨1, 1, 1⟩, ⟨1, 1, 1⟩, ⟨1, 1, 1⟩⟩, []⟩,
        [("srv", ⟨1, "srv", VMType.server, "", ⟨1, 1, 1⟩, []⟩),
         ("sw", ⟨2, "sw", VMType.switchVS, "", ⟨1, 1, 1⟩, []⟩)]⟩
      ⟨"srv", ("port0").data⟩ ⟨"sw", ("Ethernet0").data⟩ ("conn-1")
      ⟨1, "srv", VMType.server, "", ⟨1, 1, 1⟩, []⟩
      ⟨2, "sw", VMType.switchVS, "", ⟨1, 1, 1⟩, []⟩ 0 1
      rfl rfl (by decide) rfl rfl rfl rfl rfl rfl
  exact ⟨m1, m2, e1, e2, vmA', vmB', l1, l2, l3, l4⟩

/-! ## C10: expected-peer sets are duplicate-free and symmetric -/

theorem contains_iff_memS (l : List String) (a : String) :
    (l.contains a = true) ↔ a ∈ l := by
  simp [List.contains_iff_exists_mem_beq]

theorem addPeer1_name (target peer : String) (s : Server) :
    (addPeer1 target peer s).name = s.name := by
  unfold addPeer1
  cases s.name == target with
  | false => rfl
  | true =>
    cases s.vpcPeers.contains peer with
    | true => rfl
    | false => rfl

theorem addPeer1_mem (target peer : String) (s : Server) (x : String) :
    x ∈ (addPeer1 target peer s).vpcPeers
      ↔ (x ∈ s.vpcPeers ∨ (s.name = target ∧ x = peer)) := by
  unfold addPeer1
  cases h1 : (s.name == target) with
  | false =>
    have hne : s.name ≠ target := beq_eq_false_iff_ne.mp h1
    simp [hne]
  | true =>
    have heq : s.name = target := eq_of_beq h1
    cases h2 : (s.vpcPeers.contains peer) with
    | true =>
      have hmem : peer ∈ s.vpcPeers := (contains_iff_memS _ _).mp h2
      constructor
      · intro h; exact Or.inl h
      · rintro (h | ⟨_, rfl⟩)
        · exact h
        · exact hmem
    | false => simp [List.mem_append, heq]

theorem addPeer1_nodup (target peer : String) (s : Server)
    (h : s.vpcPeers.Nodup) : (addPeer1 target peer s).vpcPeers.Nodup := by
  unfold addPeer1
  cases h1 : (s.name == target) with
  | false => exact h
  | true =>
    cases h2 : (s.vpcPeers.contains peer) with
    | true => exact h
    | false =>
      have hnm : peer ∉ s.vpcPeers := by
        intro hm
        have := (contains_iff_memS s.vpcPeers peer).mpr hm
        rw [h2] at this
        cases this
      show (s.vpcPeers ++ [peer]).Nodup
      rw [List.nodup_append]
      refine ⟨h, List.nodup_singleton _, ?_⟩
      intro x hx hx1
      rw [List.mem_singleton] at hx1
      subst hx1
      exact hnm hx

theorem addPair_mem (x y : String) (s : Server) (z : String) :
    z ∈ (addPeer1 y x (addPeer1 x y s)).vpcPeers
      ↔ (z ∈ s.vpcPeers ∨ (s.name = x ∧ z = y) ∨ (s.name = y ∧ z = x)) := by
  rw [addPeer1_mem, addPeer1_mem, addPeer1_name]
  tauto

theorem addPairs_inv (pairs : List (String × String)) :
    ∀ ss : List Server, peersStateInv ss → peersStateInv (addPeerPairs ss pairs) := by
  induction pairs with
  | nil => intro ss h; exact h
  | cons pr rest ih =>
    obtain ⟨x, y⟩ := pr
    intro ss hinv
    obtain ⟨hnd, hsym⟩ := hinv
    show peersStateInv (addPeerPairs (addPeerTo (addPeerTo ss x y) y x) rest)
    apply ih
    constructor
    · intro s hs
      rw [addPeerTo, addPeerTo, List.map_map] at hs
      obtain ⟨s0, hs0, rfl⟩ := List.mem_map.mp hs
      simp only [Function.comp_apply]
      exact addPeer1_nodup _ _ _ (addPeer1_nodup _ _ _ (hnd s0 hs0))
    · intro a ha b hb
      rw [addPeerTo, addPeerTo, List.map_map] at ha hb
      obtain ⟨a0, ha0, rfl⟩ := List.mem_map.mp ha
      obtain ⟨b0, hb0, rfl⟩ := List.mem_map.mp hb
      simp only [Function.comp_apply]
      rw [addPeer1_name, addPeer1_name, addPeer1_name, addPeer1_name]
      rw [addPair_mem, addPair_mem]
      have hab := hsym a0 ha0 b0 hb0
      tauto

theorem applyVPCPeering_inv (ss ss' : List Server) (p : VPCPeering)
    (h : applyVPCPeering ss p = .ok ss') (hinv : peersStateInv ss) :
    peersStateInv ss' := by
  unfold applyVPCPeering at h
  split at h
  · cases h
  · split at h
    · cases h
    · simp only [Except.ok.injEq] at h
      rw [← h]
      exact addPairs_inv _ ss hinv

theorem derivePeers_inv (ps : List VPCPeering) :
    ∀ ss ss', derivePeers ss ps = .ok ss' → peersStateInv ss → peersStateInv ss' := by
  induction ps with
  | nil =>
    intro ss ss' h hinv
    simp only [derivePeers, Except.ok.injEq] at h
    rw [← h]
    exact hinv
  | cons p rest ih =>
    intro ss ss' h hinv
    cases happ : applyVPCPeering ss p with
    | error e => simp [derivePeers, happ] at h
    | ok ss1 =>
      simp only [derivePeers, happ] at h
      exact ih ss1 ss' h (applyVPCPeering_inv ss ss1 p happ hinv)

/-- Claim C10: starting from Phase B's fresh server records (empty expected
peer sets), the VPC-peering derivation yields, for every server, a
duplicate-free expected-peer set, and expected connectivity is symmetric:
B is in A's set iff A is in B's — even when several peering objects relate
the same pair of VPCs. -/
theorem c10_peering_symmetry (ss0 ss' : List Server) (ps : List VPCPeering)
    (hinit : ∀ s ∈ ss0, s.vpcPeers = [])
    (hok : derivePeers ss0 ps = .ok ss') :
    (∀ s ∈ ss', s.vpcPeers.Nodup)
    ∧ ∀ a ∈ ss', ∀ b ∈ ss', (b.name ∈ a.vpcPeers ↔ a.name ∈ b.vpcPeers) := by
  have h0 : peersStateInv ss0 := by
    constructor
    · intro s hs
      rw [hinit s hs]
      exact List.nodup_nil
    · intro a ha b hb
      rw [hinit a ha, hinit b hb]
      simp
  exact derivePeers_inv ps ss0 ss' hok h0

/-- Witness for `c10_peering_symmetry`: two servers in two peered VPCs end
up as each other's expected peers, symmetrically. -/
theorem c10_witness :
    (∀ s ∈ ([⟨"s1", "v1", "default", ["s2"], [], none⟩,
             ⟨"s2", "v2", "default", ["s1"], [], none⟩] : List Server),
        s.vpcPeers.Nodup)
    ∧ ∀ a ∈ ([⟨"s1", "v1", "default", ["s2"], [], none⟩,
              ⟨"s2", "v2", "default", ["s1"], [], none⟩] : List Server),
        ∀ b ∈ ([⟨"s1", "v1", "default", ["s2"], [], none⟩,
                ⟨"s2", "v2", "default", ["s1"], [], none⟩] : List Server),
        (b.name ∈ a.vpcPeers ↔ a.name ∈ b.vpcPeers) :=
  c10_peering_symmetry
    [⟨"s1", "v1", "default", [], [], none⟩, ⟨"s2", "v2", "default", [], [], none⟩]
    [⟨"s1", "v1", "default", ["s2"], [], none⟩, ⟨"s2", "v2", "default", ["s1"], [], none⟩]
    [⟨"peer-1", "v1", "v2"⟩]
    (by decide)
    rfl

/-! ## C9: multiple matching external peerings -/

theorem contains_eq_false_of_not_mem (l : List String) (a : String) (h : a ∉ l) :
    l.contains a = false := by
  cases hc : l.contains a with
  | false => rfl
  | true => exact absurd ((contains_iff_memS _ _).mp hc) h

theorem bindSubnets_fields (p : ExternalPeering) (subs : List String) :
    ∀ s s', bindSubnets p subs s = .ok s' →
      s'.vpc = s.vpc ∧ s'.subnet = s.subnet ∧ s'.name = s.name := by
  induction subs with
  | nil =>
    intro s s' h
    simp only [bindSubnets, Except.ok.injEq] at h
    subst h
    exact ⟨rfl, rfl, rfl⟩
  | cons sub rest ih =>
    intro s s' h
    simp only [bindSubnets] at h
    cases hsub : (s.subnet == sub) with
    | false =>
      rw [if_neg (by rw [hsub]; simp)] at h
      exact ih s s' h
    | true =>
      rw [if_pos hsub] at h
      cases hcont : (s.externals.contains p.externalName) with
      | true =>
        rw [if_pos hcont] at h
        exact ih s s' h
      | false =>
        rw [if_neg (by rw [hcont]; simp)] at h
        cases hse : (s.externalPeering.isSome) with
        | true => rw [if_pos hse] at h; cases h
        | false =>
          rw [if_neg (by rw [hse]; simp)] at h
          have hx := ih { s with
            externalPeering := some p.name
            externals := s.externals ++ [p.externalName] } s' h
          exact hx

theorem bindSubnets_boundSkip (p : ExternalPeering) (subs : List String)
    (s : Server) (hb : p.externalName ∈ s.externals) :
    bindSubnets p subs s = .ok s := by
  induction subs with
  | nil => rfl
  | cons sub rest ih =>
    simp only [bindSubnets]
    cases hsub : (s.subnet == sub) with
    | false => rw [if_neg (by simp)]; exact ih
    | true =>
      rw [if_pos rfl, if_pos ((contains_iff_memS _ _).mpr hb)]
      exact ih

theorem bindSubnets_nomatch (p : ExternalPeering) (subs : List String)
    (s : Server) (hnm : s.subnet ∉ subs) :
    bindSubnets p subs s = .ok s := by
  induction subs with
  | nil => rfl
  | cons sub rest ih =>
    have h1 : (s.subnet == sub) = false :=
      beq_eq_false_iff_ne.mpr fun e => hnm (e ▸ List.mem_cons_self sub rest)
    simp only [bindSubnets]
    rw [if_neg (by rw [h1]; simp)]
    exact ih fun hm => hnm (List.mem_cons_of_mem _ hm)

theorem bindSubnets_unbound_bind (p : ExternalPeering) (subs : List String) :
    ∀ s : Server, Unbound s → s.subnet ∈ subs →
    bindSubnets p subs s = .ok { s with
      externalPeering := some p.name
      externals := s.externals ++ [p.externalName] } := by
  induction subs with
  | nil => intro s _ hmem; cases hmem
  | cons sub rest ih =>
    intro s hs hmem
    simp only [bindSubnets]
    cases hsub : (s.subnet == sub) with
    | true =>
      have hcont : s.externals.contains p.externalName = false := by
        rw [hs.2]; rfl
      have hse : s.externalPeering.isSome = false := by
        rw [hs.1]; rfl
      rw [if_pos rfl, if_neg (by rw [hcont]; simp), if_neg (by rw [hse]; simp)]
      exact bindSubnets_boundSkip p rest _
        (List.mem_append_right _ (List.mem_singleton.mpr rfl))
    | false =>
      have hne : s.subnet ≠ sub := beq_eq_false_iff_ne.mp hsub
      have hmem' : s.subnet ∈ rest := by
        cases List.mem_cons.mp hmem with
        | inl e => exact absurd e hne
        | inr hm => exact hm
      rw [if_neg (by simp)]
      exact ih s hs hmem'

theorem bindSubnets_conflict (p : ExternalPeering) (subs : List String)
    (s : Server) (n : String) (hb : BoundAs s n) (hne : p.externalName ≠ n)
    (hmem : s.subnet ∈ subs) :
    ∃ e, bindSubnets p subs s = .error e := by
  induction subs with
  | nil => cases hmem
  | cons sub rest ih =>
    simp only [bindSubnets]
    cases hsub : (s.subnet == sub) with
    | true =>
      have hnm : p.externalName ∉ s.externals := by
        rw [hb.2]
        intro hm
        exact hne (List.mem_singleton.mp hm)
      have hcont : s.externals.contains p.externalName = false :=
        contains_eq_false_of_not_mem _ _ hnm
      rw [if_pos rfl, if_neg (by rw [hcont]; simp), if_pos hb.1]
      exact ⟨_, rfl⟩
    | false =>
      have hne2 : s.subnet ≠ sub := beq_eq_false_iff_ne.mp hsub
      have hmem' : s.subnet ∈ rest := by
        cases List.mem_cons.mp hmem with
        | inl e => exact absurd e hne2
        | inr hm => exact hm
      rw [if_neg (by simp)]
      exact ih hmem'

theorem bindSubnets_bound_ok (p : ExternalPeering) (subs : List String)
    (s : Server) (n : String) (hb : BoundAs s n) :
    ∀ s', bindSubnets p subs s = .ok s' → s' = s := by
  induction subs with
  | nil =>
    intro s' h
    simp only [bindSubnets, Except.ok.injEq] at h
    exact h.symm
  | cons sub rest ih =>
    intro s' h
    simp only [bindSubnets] at h
    cases hsub : (s.subnet == sub) with
    | false =>
      rw [if_neg (by rw [hsub]; simp)] at h
      exact ih s' h
    | true =>
      rw [if_pos hsub] at h
      cases hcont : (s.externals.contains p.externalName) with
      | true =>
        rw [if_pos hcont] at h
        exact ih s' h
      | false =>
        rw [if_neg (by rw [hcont]; simp), if_pos hb.1] at h
        cases h

theorem bindExtServer_fields (p : ExternalPeering) (s s' : Server)
    (h : bindExtServer p s = .ok s') :
    s'.vpc = s.vpc ∧ s'.subnet = s.subnet ∧ s'.name = s.name := by
  unfold bindExtServer at h
  cases hv : (s.vpc == p.permitVPC) with
  | true =>
    rw [if_pos hv] at h
    exact bindSubnets_fields p _ s s' h
  | false =>
    rw [if_neg (by rw [hv]; simp)] at h
    simp only [Except.ok.injEq] at h
    subst h
    exact ⟨rfl, rfl, rfl⟩

theorem bindExtServer_J (p : ExternalPeering) (s s' : Server)
    (hJ : Unbound s ∨ ∃ n, BoundAs s n) (h : bindExtServer p s = .ok s') :
    Unbound s' ∨ ∃ n, BoundAs s' n := by
  unfold bindExtServer at h
  cases hv : (s.vpc == p.permitVPC) with
  | false =>
    rw [if_neg (by rw [hv]; simp)] at h
    simp only [Except.ok.injEq] at h
    subst h
    exact hJ
  | true =>
    rw [if_pos hv] at h
    cases hJ with
    | inl hu =>
      by_cases hmem : s.subnet ∈ p.permitSubnets
      · rw [bindSubnets_unbound_bind p _ s hu hmem] at h
        simp only [Except.ok.injEq] at h
        subst h
        refine Or.inr ⟨p.externalName, rfl, ?_⟩
        show s.externals ++ [p.externalName] = [p.externalName]
        rw [hu.2]
        rfl
      · rw [bindSubnets_nomatch p _ s hmem] at h
        simp only [Except.ok.injEq] at h
        subst h
        exact Or.inl hu
    | inr hbn =>
      obtain ⟨n, hbn⟩ := hbn
      have := bindSubnets_bound_ok p _ s n hbn s' h
      subst this
      exact Or.inr ⟨n, hbn⟩

theorem bindExtServer_matched_bound (p : ExternalPeering) (s s' : Server)
    (hm : permitMatches p s) (hJ : Unbound s ∨ ∃ n, BoundAs s n)
    (h : bindExtServer p s = .ok s') : BoundAs s' p.externalName := by
  have hv : (s.vpc == p.permitVPC) = true := beq_iff_eq.mpr hm.1
  unfold bindExtServer at h
  rw [if_pos hv] at h
  cases hJ with
  | inl hu =>
    rw [bindSubnets_unbound_bind p _ s hu hm.2] at h
    simp only [Except.ok.injEq] at h
    subst h
    refine ⟨rfl, ?_⟩
    show s.externals ++ [p.externalName] = [p.externalName]
    rw [hu.2]
    rfl
  | inr hbn =>
    obtain ⟨n, hbn⟩ := hbn
    by_cases hpn : p.externalName = n
    · have := bindSubnets_bound_ok p _ s n hbn s' h
      subst this
      rw [hpn]
      exact hbn
    · obtain ⟨e, he⟩ := bindSubnets_conflict p _ s n hbn hpn hm.2
      rw [he] at h
      cases h

theorem bindExtServer_bound_id (p : ExternalPeering) (s s' : Server) (n : String)
    (hb : BoundAs s n) (h : bindExtServer p s = .ok s') : s' = s := by
  unfold bindExtServer at h
  cases hv : (s.vpc == p.permitVPC) with
  | false =>
    rw [if_neg (by rw [hv]; simp)] at h
    simp only [Except.ok.injEq] at h
    exact h.symm
  | true =>
    rw [if_pos hv] at h
    exact bindSubnets_bound_ok p _ s n hb s' h

theorem bindExtServer_conflict (q : ExternalPeering) (s : Server) (n : String)
    (hm : permitMatches q s) (hb : BoundAs s n) (hne : q.externalName ≠ n) :
    ∃ e, bindExtServer q s = .error e := by
  have hv : (s.vpc == q.permitVPC) = true := beq_iff_eq.mpr hm.1
  unfold bindExtServer
  rw [if_pos hv]
  exact bindSubnets_conflict q _ s n hb hne hm.2

theorem bindExtServers_split (p : ExternalPeering) :
    ∀ (l₁ : List Server) (s : Server) (l₂ r : List Server),
    bindExtServers p (l₁ ++ s :: l₂) = .ok r →
    ∃ r₁ s' r₂, r = r₁ ++ s' :: r₂ ∧ bindExtServer p s = .ok s' := by
  intro l₁
  induction l₁ with
  | nil =>
    intro s l₂ r h
    simp only [List.nil_append, bindExtServers] at h
    cases d1 : bindExtServer p s with
    | error e => rw [d1] at h; cases h
    | ok s' =>
      rw [d1] at h
      cases d2 : bindExtServers p l₂ with
      | error e => rw [d2] at h; cases h
      | ok rest' =>
        rw [d2] at h
        simp only [Except.ok.injEq] at h
        exact ⟨[], s', rest', by rw [← h]; rfl, rfl⟩
  | cons hd t ih =>
    intro s l₂ r h
    rw [show (hd :: t) ++ s :: l₂ = hd :: (t ++ s :: l₂) from rfl] at h
    simp only [bindExtServers] at h
    cases e1 : bindExtServer p hd with
    | error e => rw [e1] at h; cases h
    | ok h' =>
      rw [e1] at h
      cases e2 : bindExtServers p (t ++ s :: l₂) with
      | error e => rw [e2] at h; cases h
      | ok rr =>
        rw [e2] at h
        simp only [Except.ok.injEq] at h
        obtain ⟨r₁, s', r₂, hrr, hstep⟩ := ih s l₂ rr e2
        exact ⟨h' :: r₁, s', r₂, by rw [← h, hrr]; rfl, hstep⟩

theorem bindExtServers_err (p : ExternalPeering) (s : Server)
    (he : ∃ e0, bindExtServer p s = .error e0) :
    ∀ (l₁ l₂ : List Server), ∃ e, bindExtServers p (l₁ ++ s :: l₂) = .error e := by
  intro l₁
  induction l₁ with
  | nil =>
    intro l₂
    obtain ⟨e0, he0⟩ := he
    refine ⟨e0, ?_⟩
    simp only [List.nil_append, bindExtServers]
    rw [he0]
  | cons hd t ih =>
    intro l₂
    cases e1 : bindExtServer p hd with
    | error e =>
      refine ⟨e, ?_⟩
      rw [show (hd :: t) ++ s :: l₂ = hd :: (t ++ s :: l₂) from rfl]
      simp only [bindExtServers]
      rw [e1]
    | ok h' =>
      obtain ⟨e, he'⟩ := ih l₂
      refine ⟨e, ?_⟩
      rw [show (hd :: t) ++ s :: l₂ = hd :: (t ++ s :: l₂) from rfl]
      simp only [bindExtServers]
      rw [e1, he']

theorem bindExternals_bound_conflict (q : ExternalPeering) :
    ∀ (v : List ExternalPeering) (l₁ : List Server) (s : Server)
      (l₂ : List Server) (n : String),
    BoundAs s n → q ∈ v → q.externalName ≠ n → permitMatches q s →
    ∃ e, bindExternals v (l₁ ++ s :: l₂) = .error e := by
  intro v
  induction v with
  | nil => intro _ _ _ _ _ hqv; cases hqv
  | cons hd t ih =>
    intro l₁ s l₂ n hb hqv hne hmq
    by_cases hdef : includesDefaultRoute hd = true
    · cases hbs : bindExtServers hd (l₁ ++ s :: l₂) with
      | error e =>
        refine ⟨e, ?_⟩
        simp only [bindExternals]
        rw [if_pos hdef, hbs]
      | ok r =>
        obtain ⟨r₁, s', r₂, hr, hstep⟩ := bindExtServers_split hd l₁ s l₂ r hbs
        rcases List.mem_cons.mp hqv with hq1 | hq2
        · subst hq1
          obtain ⟨e, he⟩ := bindExtServer_conflict q s n hmq hb hne
          rw [he] at hstep
          cases hstep
        · have hid := bindExtServer_bound_id hd s s' n hb hstep
          subst hid
          subst hr
          obtain ⟨e, he⟩ := ih r₁ s' r₂ n hb hq2 hne hmq
          refine ⟨e, ?_⟩
          simp only [bindExternals]
          rw [if_pos hdef, hbs]
          exact he
    · exact ⟨_, by simp only [bindExternals]; rw [if_neg hdef]⟩

theorem bindExternals_two_matches (q : ExternalPeering) :
    ∀ (u : List ExternalPeering) (p : ExternalPeering) (v : List ExternalPeering),
    q ∈ v → q.externalName ≠ p.externalName →
    ∀ (l₁ : List Server) (s : Server) (l₂ : List Server),
    (Unbound s ∨ ∃ n, BoundAs s n) → permitMatches p s → permitMatches q s →
    ∃ e, bindExternals (u ++ p :: v) (l₁ ++ s :: l₂) = .error e := by
  intro u
  induction u with
  | nil =>
    intro p v hqv hne l₁ s l₂ hJ hmp hmq
    by_cases hdef : includesDefaultRoute p = true
    · cases hbs : bindExtServers p (l₁ ++ s :: l₂) with
      | error e =>
        refine ⟨e, ?_⟩
        simp only [List.nil_append, bindExternals]
        rw [if_pos hdef, hbs]
      | ok r =>
        obtain ⟨r₁, s', r₂, hr, hstep⟩ := bindExtServers_split p l₁ s l₂ r hbs
        have hbound : BoundAs s' p.externalName :=
          bindExtServer_matched_bound p s s' hmp hJ hstep
        have hfields := bindExtServer_fields p s s' hstep
        have hmq' : permitMatches q s' := by
          refine ⟨?_, ?_⟩
          · rw [hfields.1]; exact hmq.1
          · rw [hfields.2.1]; exact hmq.2
        subst hr
        obtain ⟨e, he⟩ := bindExternals_bound_conflict q v r₁ s' r₂
          p.externalName hbound hqv hne hmq'
        refine ⟨e, ?_⟩
        simp only [List.nil_append, bindExternals]
        rw [if_pos hdef, hbs]
        exact he
    · exact ⟨_, by simp only [List.nil_append, bindExternals]; rw [if_neg hdef]⟩
  | cons hd t ih =>
    intro p v hqv hne l₁ s l₂ hJ hmp hmq
    by_cases hdef : includesDefaultRoute hd = true
    · cases hbs : bindExtServers hd (l₁ ++ s :: l₂) with
      | error e =>
        refine ⟨e, ?_⟩
        simp only [List.cons_append, bindExternals]
        rw [if_pos hdef, hbs]
      | ok r =>
        obtain ⟨r₁, s', r₂, hr, hstep⟩ := bindExtServers_split hd l₁ s l₂ r hbs
        have hJ' := bindExtServer_J hd s s' hJ hstep
        have hfields := bindExtServer_fields hd s s' hstep
        have hmp' : permitMatches p s' :=
          ⟨by rw [hfields.1]; exact hmp.1, by rw [hfields.2.1]; exact hmp.2⟩
        have hmq' : permitMatches q s' :=
          ⟨by rw [hfields.1]; exact hmq.1, by rw [hfields.2.1]; exact hmq.2⟩
        subst hr
        obtain ⟨e, he⟩ := ih p v hqv hne r₁ s' r₂ hJ' hmp' hmq'
        refine ⟨e, ?_⟩
        simp only [List.cons_append, bindExternals]
        rw [if_pos hdef, hbs]
        exact he
    · exact ⟨_, by simp only [List.cons_append, bindExternals]; rw [if_neg hdef]⟩

/-- Claim C9 counterexample: two external peering objects with the SAME
external name both match server `s1`; the second is silently skipped (the
`slices.Contains(server.Externals, ...)` guard at line 464), Phase C
completes without a fatal error, and the server keeps the first peering. -/
theorem c9_counterexample :
    bindExternals
      [⟨"ep1", "v1", ["default"], ["0.0.0.0/0"], "ext"⟩,
       ⟨"ep2", "v1", ["default"], ["0.0.0.0/0"], "ext"⟩]
      [⟨"s1", "v1", "default", [], [], none⟩]
      = .ok [⟨"s1", "v1", "default", [], ["ext"], some "ep1"⟩] := rfl

/-- Claim C9 (amended): a server whose VPC and subnet are matched by the
permits of two external peering objects with DISTINCT external names makes
the run abort fatally during Phase C, before any check executes; a second
matching peering carrying the same external name as the one already bound is
silently ignored instead. -/
theorem c9_multiple_externals (ps : List ExternalPeering) (ss : List Server)
    (p q : ExternalPeering) (s : Server)
    (hp : p ∈ ps) (hq : q ∈ ps) (hne : p.externalName ≠ q.externalName)
    (hs : s ∈ ss) (hub : Unbound s)
    (hmp : permitMatches p s) (hmq : permitMatches q s) :
    ∃ e, bindExternals ps ss = .error e := by
  obtain ⟨l₁, l₂, hss⟩ := List.append_of_mem hs
  obtain ⟨u, v, hps⟩ := List.append_of_mem hp
  have hqne : q ≠ p := fun e => hne (e ▸ rfl)
  subst hss
  subst hps
  rcases List.mem_append.mp hq with hqu | hqpv
  · obtain ⟨u₁, u₂, hu⟩ := List.append_of_mem hqu
    subst hu
    have hps2 : (u₁ ++ q :: u₂) ++ p :: v = u₁ ++ q :: (u₂ ++ p :: v) := by
      simp [List.append_assoc]
    rw [hps2]
    exact bindExternals_two_matches p u₁ q (u₂ ++ p :: v)
      (List.mem_append_right _ (List.mem_cons_self _ _)) hne
      l₁ s l₂ (Or.inl hub) hmq hmp
  · rcases List.mem_cons.mp hqpv with hq1 | hqv
    · exact absurd hq1 hqne
    · exact bindExternals_two_matches q u p v hqv (Ne.symm hne)
        l₁ s l₂ (Or.inl hub) hmp hmq

/-- Witness for `c9_multiple_externals`: two matching peerings with distinct
external names abort the run. -/
theorem c9_witness :
    ∃ e, bindExternals
      [⟨"ep1", "v1", ["default"], ["0.0.0.0/0"], "ext1"⟩,
       ⟨"ep2", "v1", ["default"], ["0.0.0.0/0"], "ext2"⟩]
      [⟨"s1", "v1", "default", [], [], none⟩]
      = .error e :=
  c9_multiple_externals
    [⟨"ep1", "v1", ["default"], ["0.0.0.0/0"], "ext1"⟩,
     ⟨"ep2", "v1", ["default"], ["0.0.0.0/0"], "ext2"⟩]
    [⟨"s1", "v1", "default", [], [], none⟩]
    ⟨"ep1", "v1", ["default"], ["0.0.0.0/0"], "ext1"⟩
    ⟨"ep2", "v1", ["default"], ["0.0.0.0/0"], "ext2"⟩
    ⟨"s1", "v1", "default", [], [], none⟩
    (by decide) (by decide) (by decide) (by decide) ⟨rfl, rfl⟩
    ⟨rfl, by decide⟩ ⟨rfl, by decide⟩

end Fabricator
